import Mathlib

set_option maxHeartbeats 1600000
set_option maxRecDepth 4096

/-!
Shallow embedding of the lexical analyzer of `src/main.py` (class `Lexer`).

The combined regular expression (one big alternation of named groups,
compiled with `re.MULTILINE` and scanned with `finditer`) is rendered as an
ordered list of matcher functions tried at each input position; the first
matcher that succeeds wins, exactly like a Python alternation.  Every
matcher returns the length of its match.  `Lexer.tokenize` becomes a
fuel-indexed loop (`runScan`) over the source, threading the mutable state
of the Python object (`self.tokens`, `self.symbols`, `self.next_id`)
explicitly as a `LexState`.

Character classes are modelled at the precision of the literal classes
written in the source patterns (`[A-Za-z_]`, `[ \t]`, digits, etc.); the
`FLOAT` attribute (Python `float(lexeme)`) is carried as the literal text
of the lexeme, since floating-point values are outside the scope of the
properties proved here and `float` cannot fail on a `\d+\.\d+` match.
-/

/-! ### Data model: tokens, attributes, symbol-table entries, lexer state -/

/-- Attribute payload of a token (Python uses `None`, strings, ints and
floats; the float value is represented by the matched text). -/
inductive Attr where
  | str : String → Attr
  | intv : Int → Attr
  | floatv : String → Attr
deriving DecidableEq, Repr

/-- One token `(tipo, lexema, attr, line, col)` as appended to
`self.tokens` (src/main.py line 8). -/
structure Tok where
  kind : String
  lexeme : String
  attr : Option Attr
  line : Nat
  col : Nat
deriving DecidableEq, Repr

/-- A symbol-table entry `{"id": "idN", "count": n}` (src/main.py line 9). -/
structure SymEntry where
  id : String
  count : Nat
deriving DecidableEq, Repr

/-- The mutable state of a `Lexer` instance: `self.tokens`, `self.symbols`
(an insertion-ordered dict, modelled as an association list) and
`self.next_id` (src/main.py lines 8-10). -/
structure LexState where
  tokens : List Tok
  symbols : List (String × SymEntry)
  next_id : Nat
deriving DecidableEq, Repr

/-- The fresh state built by `Lexer.__init__`. -/
def initState : LexState := { tokens := [], symbols := [], next_id := 1 }

/-- The keyword set of src/main.py lines 13-17. -/
def keywords : List String :=
  ["int", "float", "double", "char", "void", "if", "else", "while", "for", "return",
   "switch", "case", "default", "break", "continue", "struct", "union", "enum",
   "typedef", "const", "static", "extern", "goto", "sizeof"]

/-! ### Character classes used by the regex patterns -/

/-- The class `[ \t]` (horizontal whitespace). -/
def isSpTab (c : Char) : Bool := c == ' ' || c == '\t'

/-- The class `[A-Za-z_]` (identifier start). -/
def isIdStart (c : Char) : Bool := c.isAlpha || c == '_'

/-- The class `[A-Za-z0-9_]` (identifier continuation). -/
def isIdChar (c : Char) : Bool := c.isAlphanum || c == '_'

/-- The single-character operator class `[+\-*/%<>=!&|^~?:]` of `OP_1`. -/
def isOp1Char (c : Char) : Bool :=
  c == '+' || c == '-' || c == '*' || c == '/' || c == '%' || c == '<' || c == '>' ||
  c == '=' || c == '!' || c == '&' || c == '|' || c == '^' || c == '~' || c == '?' || c == ':'

/-- The delimiter class `[()\[\]{};,\.]` of `DELIM`. -/
def isDelimChar (c : Char) : Bool :=
  c == '(' || c == ')' || c == '[' || c == ']' || c == '{' || c == '}' ||
  c == ';' || c == ',' || c == '.'

/-- The two-character operators of the `OP_2` alternation
`==|!=|<=|>=|\+=|-=|\*=|/=|%=|&=|\|=|\^=|<<|>>|&&|\|\||\+\+|--|->`. -/
def isOp2 (a b : Char) : Bool :=
  (a == '=' && b == '=') || (a == '!' && b == '=') || (a == '<' && b == '=') ||
  (a == '>' && b == '=') || (a == '+' && b == '=') || (a == '-' && b == '=') ||
  (a == '*' && b == '=') || (a == '/' && b == '=') || (a == '%' && b == '=') ||
  (a == '&' && b == '=') || (a == '|' && b == '=') || (a == '^' && b == '=') ||
  (a == '<' && b == '<') || (a == '>' && b == '>') || (a == '&' && b == '&') ||
  (a == '|' && b == '|') || (a == '+' && b == '+') || (a == '-' && b == '-') ||
  (a == '-' && b == '>')

/-! ### The individual patterns of `token_specification` (src/main.py lines 52-92)

Each matcher takes the remaining input and returns `some n` when its
pattern matches a prefix of length `n` at the current position (Python
semantics of the corresponding regex alternative), else `none`. -/

/-- `PP_DIRECTIVE`: `^[ \t]*\#.*` under `re.MULTILINE`; the `^` anchor is
passed in as the `lineStart` flag. -/
def matchPP (lineStart : Bool) (rest : List Char) : Option Nat :=
  if lineStart then
    match rest.dropWhile isSpTab with
    | '#' :: after =>
        some ((rest.takeWhile isSpTab).length + 1 + (after.takeWhile (fun c => c != '\n')).length)
    | _ => none
  else none

/-- Distance to just past the first `*/` in the list (the lazy
`[\s\S]*?\*/` tail of the block-comment pattern). -/
def findStarSlash : List Char → Option Nat
  | [] => none
  | c :: cs =>
      match c, cs with
      | '*', '/' :: _ => some 2
      | _, _ => (findStarSlash cs).map (fun k => k + 1)

/-- `COMMENT_BLOCK`: `/\*[\s\S]*?\*/` (lazy: ends at the first `*/`). -/
def matchCommentBlock : List Char → Option Nat
  | '/' :: '*' :: cs => (findStarSlash cs).map (fun k => k + 2)
  | _ => none

/-- `COMMENT_LINE`: `//.*` (dot does not match a newline). -/
def matchCommentLine : List Char → Option Nat
  | '/' :: '/' :: cs => some (2 + (cs.takeWhile (fun c => c != '\n')).length)
  | _ => none

/-- Length (including the closing quote) of `(?:\\.|[^"\\\n])*"`, the body
of the string pattern after the opening quote; `\\.` cannot escape a
newline because `.` does not match `\n`. -/
def strBody : List Char → Option Nat
  | [] => none
  | c :: cs =>
      if c == '"' then some 1
      else if c == '\n' then none
      else if c == '\\' then
        match cs with
        | [] => none
        | d :: ds => if d == '\n' then none else (strBody ds).map (fun k => k + 2)
      else (strBody cs).map (fun k => k + 1)

/-- `STRING`: `\"(?:\\.|[^\"\\\n])*\"`. -/
def matchString : List Char → Option Nat
  | '"' :: cs => (strBody cs).map (fun k => k + 1)
  | _ => none

/-- `CHAR`: `'(?:\\.|[^'\\\n])'` — exactly one escape pair or one plain
character between the quotes (an empty pair `''` does not match). -/
def matchChar : List Char → Option Nat
  | '\'' :: '\\' :: c :: '\'' :: _ => if c == '\n' then none else some 4
  | '\'' :: c :: '\'' :: _ => if c == '\\' || c == '\'' || c == '\n' then none else some 3
  | _ => none

/-- `NUM_ID_ERROR`: `\d+[A-Za-z_][A-Za-z0-9_]*` (e.g. `123abc`). -/
def matchNumIdError (rest : List Char) : Option Nat :=
  let ds := rest.takeWhile Char.isDigit
  if ds.length = 0 then none
  else
    match rest.dropWhile Char.isDigit with
    | c :: after =>
        if isIdStart c then some (ds.length + 1 + (after.takeWhile isIdChar).length) else none
    | [] => none

/-- `NUMBER_COMMA`: `\d+,\d+` (e.g. `3,14`). -/
def matchNumberComma (rest : List Char) : Option Nat :=
  let ds := rest.takeWhile Char.isDigit
  if ds.length = 0 then none
  else
    match rest.dropWhile Char.isDigit with
    | ',' :: after =>
        let ds2 := after.takeWhile Char.isDigit
        if ds2.length = 0 then none else some (ds.length + 1 + ds2.length)
    | _ => none

/-- `ELLIPSIS`: `\.\.\.`. -/
def matchEllipsis : List Char → Option Nat
  | '.' :: '.' :: '.' :: _ => some 3
  | _ => none

/-- `OP_3`: `<<=|>>=`. -/
def matchOp3 : List Char → Option Nat
  | '<' :: '<' :: '=' :: _ => some 3
  | '>' :: '>' :: '=' :: _ => some 3
  | _ => none

/-- `OP_2` (two-character operators). -/
def matchOp2 : List Char → Option Nat
  | a :: b :: _ => if isOp2 a b then some 2 else none
  | _ => none

/-- `OP_1`: `[+\-*/%<>=!&|^~?:]`. -/
def matchOp1 : List Char → Option Nat
  | c :: _ => if isOp1Char c then some 1 else none
  | [] => none

/-- `DELIM`: `[()\[\]{};,\.]`. -/
def matchDelim : List Char → Option Nat
  | c :: _ => if isDelimChar c then some 1 else none
  | [] => none

/-- `FLOAT`: `\d+\.\d+`. -/
def matchFloat (rest : List Char) : Option Nat :=
  let ds := rest.takeWhile Char.isDigit
  if ds.length = 0 then none
  else
    match rest.dropWhile Char.isDigit with
    | '.' :: after =>
        let ds2 := after.takeWhile Char.isDigit
        if ds2.length = 0 then none else some (ds.length + 1 + ds2.length)
    | _ => none

/-- `INT`: `\d+`. -/
def matchInt (rest : List Char) : Option Nat :=
  let ds := rest.takeWhile Char.isDigit
  if ds.length = 0 then none else some ds.length

/-- `ID`: `[A-Za-z_][A-Za-z0-9_]*`. -/
def matchId : List Char → Option Nat
  | c :: cs => if isIdStart c then some (1 + (cs.takeWhile isIdChar).length) else none
  | [] => none

/-- `NEWLINE`: `\n+`. -/
def matchNewline (rest : List Char) : Option Nat :=
  let ns := rest.takeWhile (fun c => c == '\n')
  if ns.length = 0 then none else some ns.length

/-- `SKIP`: `[ \t]+`. -/
def matchSkip (rest : List Char) : Option Nat :=
  let ns := rest.takeWhile isSpTab
  if ns.length = 0 then none else some ns.length

/-- Names of the alternatives of `token_specification`, in their order. -/
inductive MKind where
  | PP_DIRECTIVE | COMMENT_BLOCK | COMMENT_LINE | STRING | CHAR
  | NUM_ID_ERROR | NUMBER_COMMA | ELLIPSIS | OP_3 | OP_2 | OP_1 | DELIM
  | FLOAT | INT | ID | NEWLINE | SKIP | MISMATCH
deriving DecidableEq, Repr

/-- One attempt of the combined alternation at the current position: the
alternatives are tried in specification order and the first that matches
wins (Python `|` semantics).  The final `MISMATCH` alternative (`.`) is
the fallback; it is reached only on a non-newline character, since
`NEWLINE` consumes any `\n`. -/
def scanMatch (lineStart : Bool) (rest : List Char) : MKind × Nat :=
  match matchPP lineStart rest with
  | some n => (.PP_DIRECTIVE, n)
  | none =>
  match matchCommentBlock rest with
  | some n => (.COMMENT_BLOCK, n)
  | none =>
  match matchCommentLine rest with
  | some n => (.COMMENT_LINE, n)
  | none =>
  match matchString rest with
  | some n => (.STRING, n)
  | none =>
  match matchChar rest with
  | some n => (.CHAR, n)
  | none =>
  match matchNumIdError rest with
  | some n => (.NUM_ID_ERROR, n)
  | none =>
  match matchNumberComma rest with
  | some n => (.NUMBER_COMMA, n)
  | none =>
  match matchEllipsis rest with
  | some n => (.ELLIPSIS, n)
  | none =>
  match matchOp3 rest with
  | some n => (.OP_3, n)
  | none =>
  match matchOp2 rest with
  | some n => (.OP_2, n)
  | none =>
  match matchOp1 rest with
  | some n => (.OP_1, n)
  | none =>
  match matchDelim rest with
  | some n => (.DELIM, n)
  | none =>
  match matchFloat rest with
  | some n => (.FLOAT, n)
  | none =>
  match matchInt rest with
  | some n => (.INT, n)
  | none =>
  match matchId rest with
  | some n => (.ID, n)
  | none =>
  match matchNewline rest with
  | some n => (.NEWLINE, n)
  | none =>
  match matchSkip rest with
  | some n => (.SKIP, n)
  | none => (.MISMATCH, 1)

/-! ### Position tracking and the operator/delimiter category tables -/

/-- Index of the last `'\n'` in a list (Python `str.rfind`), if any. -/
def lastNlIdx : List Char → Option Nat
  | [] => none
  | c :: cs =>
      match lastNlIdx cs with
      | some i => some (i + 1)
      | none => if c == '\n' then some 0 else none

/-- `Lexer.get_line_col` (src/main.py lines 100-105): 1-based line from the
newline count before `pos`, column `pos - last_nl` (`rfind` returns `-1`
when absent, giving `pos + 1`). -/
def get_line_col (src : List Char) (pos : Nat) : Nat × Nat :=
  let pre := src.take pos
  let line := pre.count '\n' + 1
  let col :=
    match lastNlIdx pre with
    | some i => pos - i
    | none => pos + 1
  (line, col)

/-- Whether the `^` anchor of `re.MULTILINE` holds at `pos`: start of the
string, or immediately after a `'\n'`. -/
def lineStartAt (src : List Char) (pos : Nat) : Bool :=
  pos == 0 || (src.drop (pos - 1)).head? == some '\n'

/-- The flattened operator/delimiter category map `self.flat_op_to_cat`
(src/main.py lines 20-49; the per-category sets are pairwise disjoint, so
the dict is this function). -/
def flat_op_to_cat : String → Option String
  | "+" | "-" | "*" | "/" | "%" => some "ARITH_OP"
  | "==" | "!=" | "<" | "<=" | ">" | ">=" => some "REL_OP"
  | "&&" | "||" | "!" => some "LOGIC_OP"
  | "&" | "|" | "^" | "~" | "<<" | ">>" => some "BIT_OP"
  | "=" | "+=" | "-=" | "*=" | "/=" | "%=" | "&=" | "|=" | "^=" | "<<=" | ">>=" =>
      some "ASSIGN_OP"
  | "++" | "--" => some "INCDEC"
  | "->" => some "ARROW"
  | "..." => some "ELLIPSIS"
  | "?" | ":" => some "TERNARY"
  | "(" => some "LPAREN"
  | ")" => some "RPAREN"
  | "\x7b" => some "LBRACE"
  | "\x7d" => some "RBRACE"
  | "[" => some "LBRACKET"
  | "]" => some "RBRACKET"
  | ";" => some "SEMICOLON"
  | "," => some "COMMA"
  | "." => some "DOT"
  | _ => none

/-- `Lexer.categorize_op_or_delim` (src/main.py lines 107-108). -/
def categorize_op_or_delim (lexeme : String) : String :=
  (flat_op_to_cat lexeme).getD "UNKNOWN_OP_DELIM"

/-- The operator/delimiter classification performed inline in `tokenize`
(src/main.py lines 182-195), including the dead `UNKNOWN_OP_DELIM`
fallback branch. -/
def opDelimCategory (lexeme : String) : String :=
  let cat := categorize_op_or_delim lexeme
  if cat = "UNKNOWN_OP_DELIM" then
    if lexeme = "(" || lexeme = ")" || lexeme = "\x7b" || lexeme = "\x7d" ||
       lexeme = "[" || lexeme = "]" then
      match lexeme with
      | "(" => "LPAREN"
      | "\x7d" => "RBRACE"
      | "\x7b" => "LBRACE"
      | ")" => "RPAREN"
      | "[" => "LBRACKET"
      | "]" => "RBRACKET"
      | _ => "DELIM"
    else if lexeme.data.length == 1 && lexeme.data.all isDelimChar then "DELIM"
    else "OP"
  else cat

/-! ### The symbol table -/

/-- Dict lookup in `self.symbols`. -/
def lookupSym : List (String × SymEntry) → String → Option SymEntry
  | [], _ => none
  | (k, e) :: rest, name => if k = name then some e else lookupSym rest name

/-- In-place `self.symbols[name]["count"] += 1`. -/
def bumpCount : List (String × SymEntry) → String → List (String × SymEntry)
  | [], _ => []
  | (k, e) :: rest, name =>
      if k = name then (k, { e with count := e.count + 1 }) :: rest
      else (k, e) :: bumpCount rest name

/-- `Lexer.add_symbol` (src/main.py lines 110-118): first call for a name
inserts `{"id": f"id{next_id}", "count": 1}` and bumps `next_id`;
later calls increment the count and return the stored id. -/
def add_symbol (name : String) (st : LexState) : String × LexState :=
  match lookupSym st.symbols name with
  | none =>
      let assigned := "id" ++ toString st.next_id
      (assigned,
        { st with
          symbols := st.symbols ++ [(name, { id := assigned, count := 1 })],
          next_id := st.next_id + 1 })
  | some e => (e.id, { st with symbols := bumpCount st.symbols name })

/-! ### Token classification (the body of the `for mo in finditer` loop) -/

/-- Python `lexeme.rstrip("\r\n")`. -/
def rstripCRLF (l : List Char) : List Char :=
  (l.reverse.dropWhile (fun c => c == '\r' || c == '\n')).reverse

/-- Decimal value of a digit run (Python `int(lexeme)`, which cannot fail
on a `\d+` match). -/
def parseNat (l : List Char) : Nat :=
  l.foldl (fun a c => a * 10 + (c.toNat - 48)) 0

/-- The dispatch on `kind = mo.lastgroup` in `Lexer.tokenize`
(src/main.py lines 122-201): skip comments/whitespace, strip the stored
`PP_DIRECTIVE` lexeme, report the two numeric error patterns, take string
and char contents as `lexeme[1:-1]` (no escape decoding), parse numeric
literals, classify identifiers against the keyword set or the symbol
table, categorize operators/delimiters and report `MISMATCH` characters. -/
def classify (kind : MKind) (lexeme : List Char) (line col : Nat) (st : LexState) : LexState :=
  match kind with
  | .COMMENT_BLOCK | .COMMENT_LINE | .SKIP | .NEWLINE => st
  | .PP_DIRECTIVE =>
      { st with tokens := st.tokens ++
          [{ kind := "PP_DIRECTIVE", lexeme := String.mk (rstripCRLF lexeme), attr := none,
             line := line, col := col }] }
  | .NUM_ID_ERROR =>
      { st with tokens := st.tokens ++
          [{ kind := "ERROR", lexeme := String.mk lexeme,
             attr := some (.str "identificador não pode começar com número"),
             line := line, col := col }] }
  | .NUMBER_COMMA =>
      { st with tokens := st.tokens ++
          [{ kind := "ERROR", lexeme := String.mk lexeme,
             attr := some (.str "vírgula como separador decimal (use ponto)"),
             line := line, col := col }] }
  | .STRING =>
      { st with tokens := st.tokens ++
          [{ kind := "STRING_LITERAL", lexeme := String.mk lexeme,
             attr := some (.str (String.mk ((lexeme.drop 1).dropLast))),
             line := line, col := col }] }
  | .CHAR =>
      { st with tokens := st.tokens ++
          [{ kind := "CHAR_LITERAL", lexeme := String.mk lexeme,
             attr := some (.str (String.mk ((lexeme.drop 1).dropLast))),
             line := line, col := col }] }
  | .FLOAT =>
      { st with tokens := st.tokens ++
          [{ kind := "FLOAT_LITERAL", lexeme := String.mk lexeme,
             attr := some (.floatv (String.mk lexeme)),
             line := line, col := col }] }
  | .INT =>
      { st with tokens := st.tokens ++
          [{ kind := "INT_LITERAL", lexeme := String.mk lexeme,
             attr := some (.intv (parseNat lexeme)),
             line := line, col := col }] }
  | .ID =>
      if String.mk lexeme ∈ keywords then
        { st with tokens := st.tokens ++
            [{ kind := "KEYWORD", lexeme := String.mk lexeme, attr := none,
               line := line, col := col }] }
      else
        let r := add_symbol (String.mk lexeme) st
        { r.2 with tokens := r.2.tokens ++
            [{ kind := "IDENTIFIER", lexeme := String.mk lexeme, attr := some (.str r.1),
               line := line, col := col }] }
  | .ELLIPSIS | .OP_3 | .OP_2 | .OP_1 | .DELIM =>
      { st with tokens := st.tokens ++
          [{ kind := opDelimCategory (String.mk lexeme), lexeme := String.mk lexeme,
             attr := none, line := line, col := col }] }
  | .MISMATCH =>
      { st with tokens := st.tokens ++
          [{ kind := "ERROR", lexeme := String.mk lexeme,
             attr := some (.str "caractere inesperado"),
             line := line, col := col }] }

/-! ### The scanning loop -/

/-- The `finditer` loop of `Lexer.tokenize`: at each position take the
first alternative that matches, classify its lexeme, and continue after
it.  The fuel argument only bounds the iteration count; every match
consumes at least one character, so `src.length` fuel scans everything
(proved below). -/
def runScan (src : List Char) : Nat → Nat → LexState → LexState
  | 0, _, st => st
  | fuel + 1, pos, st =>
      match src.drop pos with
      | [] => st
      | c :: cs =>
          let m := scanMatch (lineStartAt src pos) (c :: cs)
          let lc := get_line_col src pos
          runScan src fuel (pos + m.2) (classify m.1 ((c :: cs).take m.2) lc.1 lc.2 st)

/-- One call of `Lexer.tokenize` on an existing instance state: scan the
whole source, then append the terminal `EOF` token (src/main.py
lines 203-205).  Nothing is reset. -/
def tokenizeFrom (src : List Char) (st : LexState) : LexState :=
  let st' := runScan src src.length 0 st
  let lc := get_line_col src src.length
  { st' with tokens := st'.tokens ++
      [{ kind := "EOF", lexeme := "", attr := none, line := lc.1, col := lc.2 }] }

/-- `Lexer(source).tokenize()`: a fresh instance, then one scan. -/
def tokenize (source : String) : LexState :=
  tokenizeFrom source.data initState

/-! ### State-independent projections of a scan

The kind and lexeme of every emitted token, and the skipped spans, depend
only on the source text, never on the symbol table (only the identifier
*attribute* consults it).  These projections let several properties be
phrased independently of the threaded state. -/

/-- Kind and stored lexeme of the token (if any) that `classify` emits for
a match of alternative `kind` with raw lexeme `lexeme`. -/
def klToks (kind : MKind) (lexeme : List Char) : List (String × String) :=
  match kind with
  | .COMMENT_BLOCK | .COMMENT_LINE | .SKIP | .NEWLINE => []
  | .PP_DIRECTIVE => [("PP_DIRECTIVE", String.mk (rstripCRLF lexeme))]
  | .NUM_ID_ERROR | .NUMBER_COMMA | .MISMATCH => [("ERROR", String.mk lexeme)]
  | .STRING => [("STRING_LITERAL", String.mk lexeme)]
  | .CHAR => [("CHAR_LITERAL", String.mk lexeme)]
  | .FLOAT => [("FLOAT_LITERAL", String.mk lexeme)]
  | .INT => [("INT_LITERAL", String.mk lexeme)]
  | .ID => [(if String.mk lexeme ∈ keywords then "KEYWORD" else "IDENTIFIER", String.mk lexeme)]
  | .ELLIPSIS | .OP_3 | .OP_2 | .OP_1 | .DELIM =>
      [(opDelimCategory (String.mk lexeme), String.mk lexeme)]

/-- Projection of a token to its kind and lexeme. -/
def klProj (t : Tok) : String × String := (t.kind, t.lexeme)

/-- Kinds and lexemes of all tokens a scan emits, in order. -/
def klScan (src : List Char) : Nat → Nat → List (String × String)
  | 0, _ => []
  | fuel + 1, pos =>
      match src.drop pos with
      | [] => []
      | c :: cs =>
          let m := scanMatch (lineStartAt src pos) (c :: cs)
          klToks m.1 ((c :: cs).take m.2) ++ klScan src fuel (pos + m.2)

/-- Raw matched spans of a scan, concatenated. -/
def rawScan (src : List Char) : Nat → Nat → List Char
  | 0, _ => []
  | fuel + 1, pos =>
      match src.drop pos with
      | [] => []
      | c :: cs =>
          let m := scanMatch (lineStartAt src pos) (c :: cs)
          (c :: cs).take m.2 ++ rawScan src fuel (pos + m.2)

/-- Contribution of one match to the source-order concatenation of claim
C2: the stored lexeme of the emitted token if one is emitted, otherwise
the raw skipped whitespace/comment span. -/
def contribOf (kind : MKind) (lexeme : List Char) : List Char :=
  match klToks kind lexeme with
  | [] => lexeme
  | ps => (ps.map (fun p => p.2.data)).flatten

/-- Concatenation, in source order, of every emitted token's stored lexeme
and every skipped whitespace/comment span. -/
def reconScan (src : List Char) : Nat → Nat → List Char
  | 0, _ => []
  | fuel + 1, pos =>
      match src.drop pos with
      | [] => []
      | c :: cs =>
          let m := scanMatch (lineStartAt src pos) (c :: cs)
          contribOf m.1 ((c :: cs).take m.2) ++ reconScan src fuel (pos + m.2)

/-- Occurrence count recorded for `name`, 0 when absent. -/
def countOf (tab : List (String × SymEntry)) (name : String) : Nat :=
  match lookupSym tab name with
  | some e => e.count
  | none => 0

/-- Does this (kind, lexeme) pair record an `IDENTIFIER` token for `name`? -/
def identKl (name : String) (p : String × String) : Bool :=
  p.1 == "IDENTIFIER" && p.2 == name

/-- Does this token record an `IDENTIFIER` occurrence of `name`? -/
def identTok (name : String) (t : Tok) : Bool :=
  t.kind == "IDENTIFIER" && t.lexeme == name

/-- Key list of the symbol table. -/
def tabKeys (tab : List (String × SymEntry)) : List String := tab.map (fun p => p.1)

/-- Keys with their assigned ids (counts erased). -/
def tabIds (tab : List (String × SymEntry)) : List (String × String) :=
  tab.map (fun p => (p.1, p.2.id))

/-- Names of the `IDENTIFIER` tokens a scan emits. -/
def klIdNames (src : List Char) (fuel pos : Nat) : List String :=
  (klScan src fuel pos).filterMap (fun p => if p.1 == "IDENTIFIER" then some p.2 else none)

/-- Shape of the attribute stored on string/char literal tokens by
`Lexer.tokenize`: the raw text between the quotes (`lexeme[1:-1]`), with
escape sequences left as written (src/main.py lines 144-154 perform no
unescaping). -/
def litAttrOK (t : Tok) : Prop :=
  (t.kind = "STRING_LITERAL" →
    t.attr = some (Attr.str (String.mk ((t.lexeme.data.drop 1).dropLast)))) ∧
  (t.kind = "CHAR_LITERAL" →
    t.attr = some (Attr.str (String.mk ((t.lexeme.data.drop 1).dropLast))))

/-! ## Auxiliary list facts -/

theorem takeWhile_length_le (p : α → Bool) (l : List α) : (l.takeWhile p).length ≤ l.length := by
  induction l with
  | nil => simp
  | cons a l ih =>
      by_cases h : p a
      · simpa [List.takeWhile_cons_of_pos h] using Nat.succ_le_succ ih
      · simp [List.takeWhile_cons_of_neg h]

theorem length_takeWhile_add (p : α → Bool) (l : List α) :
    (l.takeWhile p).length + (l.dropWhile p).length = l.length := by
  have h := congrArg List.length (List.takeWhile_append_dropWhile (p := p) (l := l))
  rw [List.length_append] at h
  exact h

theorem mem_takeWhile_pred {p : α → Bool} {l : List α} {a : α} (h : a ∈ l.takeWhile p) :
    p a = true := by
  induction l with
  | nil => simp at h
  | cons b l ih =>
      by_cases hb : p b
      · rw [List.takeWhile_cons_of_pos hb] at h
        rcases List.mem_cons.mp h with rfl | h
        · exact hb
        · exact ih h
      · rw [List.takeWhile_cons_of_neg hb] at h
        simp at h

/-! ## Every pattern matches at least one and at most all remaining characters -/

theorem matchPP_bound {ls : Bool} {rest : List Char} {n : Nat} (h : matchPP ls rest = some n) :
    1 ≤ n ∧ n ≤ rest.length := by
  unfold matchPP at h
  split at h
  · split at h
    · rename_i after heq
      injection h with h
      have h1 := takeWhile_length_le isSpTab rest
      have h2 := takeWhile_length_le (fun c => c != '\n') after
      have h3 := length_takeWhile_add isSpTab rest
      have h4 : (rest.dropWhile isSpTab).length = after.length + 1 := by rw [heq]; simp
      omega
    · exact absurd h (by simp)
  · exact absurd h (by simp)

theorem findStarSlash_bound :
    ∀ (l : List Char) (n : Nat), findStarSlash l = some n → 2 ≤ n ∧ n ≤ l.length := by
  intro l
  induction l with
  | nil => intro n h; simp [findStarSlash] at h
  | cons c cs ih =>
      intro n h
      unfold findStarSlash at h
      split at h
      · rename_i rest'
        injection h with h
        subst h
        refine ⟨le_refl 2, ?_⟩
        simp
      · rcases hm : findStarSlash cs with _ | k
        · rw [hm] at h; simp at h
        · rw [hm] at h
          simp only [Option.map_some'] at h
          injection h with h
          have := ih k hm
          simp only [List.length_cons]
          omega

theorem matchCommentBlock_bound {rest : List Char} {n : Nat}
    (h : matchCommentBlock rest = some n) : 1 ≤ n ∧ n ≤ rest.length := by
  unfold matchCommentBlock at h
  split at h
  · rename_i cs
    rcases hm : findStarSlash cs with _ | k
    · rw [hm] at h; simp at h
    · rw [hm] at h
      simp only [Option.map_some'] at h
      injection h with h
      have := findStarSlash_bound cs k hm
      simp only [List.length_cons]
      omega
  · exact absurd h (by simp)

theorem matchCommentLine_bound {rest : List Char} {n : Nat}
    (h : matchCommentLine rest = some n) : 1 ≤ n ∧ n ≤ rest.length := by
  unfold matchCommentLine at h
  split at h
  · rename_i cs
    injection h with h
    have := takeWhile_length_le (fun c => c != '\n') cs
    simp only [List.length_cons]
    omega
  · exact absurd h (by simp)

theorem strBody_bound :
    ∀ (l : List Char) (n : Nat), strBody l = some n → 1 ≤ n ∧ n ≤ l.length
  | [], n, h => by simp [strBody] at h
  | [c], n, h => by
      unfold strBody at h
      by_cases h1 : (c == '"') = true
      · rw [if_pos h1] at h
        injection h with h
        subst h
        simp
      · rw [if_neg h1] at h
        by_cases h2 : (c == '\n') = true
        · rw [if_pos h2] at h; exact absurd h (by simp)
        · rw [if_neg h2] at h
          by_cases h3 : (c == '\\') = true
          · rw [if_pos h3] at h; exact absurd h (by simp)
          · rw [if_neg h3] at h
            simp [strBody] at h
  | c :: d :: ds, n, h => by
      unfold strBody at h
      by_cases h1 : (c == '"') = true
      · rw [if_pos h1] at h
        injection h with h
        subst h
        simp
      · rw [if_neg h1] at h
        by_cases h2 : (c == '\n') = true
        · rw [if_pos h2] at h; exact absurd h (by simp)
        · rw [if_neg h2] at h
          by_cases h3 : (c == '\\') = true
          · rw [if_pos h3] at h
            have h' : (if (d == '\n') = true then none
                else Option.map (fun k => k + 2) (strBody ds)) = some n := h
            clear h
            rename' h' => h
            by_cases h4 : (d == '\n') = true
            · rw [if_pos h4] at h; exact absurd h (by simp)
            · rw [if_neg h4] at h
              rcases hm : strBody ds with _ | k
              · rw [hm] at h; simp at h
              · rw [hm] at h
                simp only [Option.map_some'] at h
                injection h with h
                have := strBody_bound ds k hm
                simp only [List.length_cons]
                omega
          · rw [if_neg h3] at h
            rcases hm : strBody (d :: ds) with _ | k
            · rw [hm] at h; simp at h
            · rw [hm] at h
              simp only [Option.map_some'] at h
              injection h with h
              have := strBody_bound (d :: ds) k hm
              simp only [List.length_cons] at *
              omega

theorem matchString_bound {rest : List Char} {n : Nat}
    (h : matchString rest = some n) : 1 ≤ n ∧ n ≤ rest.length := by
  unfold matchString at h
  split at h
  · rename_i cs
    rcases hm : strBody cs with _ | k
    · rw [hm] at h; simp at h
    · rw [hm] at h
      simp only [Option.map_some'] at h
      injection h with h
      have := strBody_bound cs k hm
      simp only [List.length_cons]
      omega
  · exact absurd h (by simp)

theorem matchChar_bound {rest : List Char} {n : Nat}
    (h : matchChar rest = some n) : 1 ≤ n ∧ n ≤ rest.length := by
  unfold matchChar at h
  split at h
  · rename_i c tail
    split at h
    · exact absurd h (by simp)
    · injection h with h
      subst h
      simp only [List.length_cons]
      omega
  · rename_i c tail
    split at h
    · exact absurd h (by simp)
    · injection h with h
      subst h
      simp only [List.length_cons]
      omega
  · exact absurd h (by simp)

theorem matchNumIdError_bound {rest : List Char} {n : Nat}
    (h : matchNumIdError rest = some n) : 1 ≤ n ∧ n ≤ rest.length := by
  simp only [matchNumIdError] at h
  split at h
  · exact absurd h (by simp)
  · split at h
    · rename_i c after heq
      split at h
      · injection h with h
        have h2 := takeWhile_length_le isIdChar after
        have h3 := length_takeWhile_add Char.isDigit rest
        have h4 : (rest.dropWhile Char.isDigit).length = after.length + 1 := by rw [heq]; simp
        omega
      · exact absurd h (by simp)
    · exact absurd h (by simp)

theorem matchNumberComma_bound {rest : List Char} {n : Nat}
    (h : matchNumberComma rest = some n) : 1 ≤ n ∧ n ≤ rest.length := by
  simp only [matchNumberComma] at h
  split at h
  · exact absurd h (by simp)
  · split at h
    · rename_i after heq
      split at h
      · exact absurd h (by simp)
      · injection h with h
        have h2 := takeWhile_length_le Char.isDigit after
        have h3 := length_takeWhile_add Char.isDigit rest
        have h4 : (rest.dropWhile Char.isDigit).length = after.length + 1 := by rw [heq]; simp
        omega
    · exact absurd h (by simp)

theorem matchEllipsis_bound {rest : List Char} {n : Nat}
    (h : matchEllipsis rest = some n) : 1 ≤ n ∧ n ≤ rest.length := by
  unfold matchEllipsis at h
  split at h
  · injection h with h
    subst h
    simp only [List.length_cons]
    omega
  · exact absurd h (by simp)

theorem matchOp3_bound {rest : List Char} {n : Nat}
    (h : matchOp3 rest = some n) : 1 ≤ n ∧ n ≤ rest.length := by
  unfold matchOp3 at h
  split at h
  · injection h with h
    subst h
    simp only [List.length_cons]
    omega
  · injection h with h
    subst h
    simp only [List.length_cons]
    omega
  · exact absurd h (by simp)

theorem matchOp2_bound {rest : List Char} {n : Nat}
    (h : matchOp2 rest = some n) : 1 ≤ n ∧ n ≤ rest.length := by
  unfold matchOp2 at h
  split at h
  · split at h
    · injection h with h
      subst h
      simp only [List.length_cons]
      omega
    · exact absurd h (by simp)
  · exact absurd h (by simp)

theorem matchOp1_bound {rest : List Char} {n : Nat}
    (h : matchOp1 rest = some n) : 1 ≤ n ∧ n ≤ rest.length := by
  unfold matchOp1 at h
  split at h
  · split at h
    · injection h with h
      subst h
      simp only [List.length_cons]
      omega
    · exact absurd h (by simp)
  · exact absurd h (by simp)

theorem matchDelim_bound {rest : List Char} {n : Nat}
    (h : matchDelim rest = some n) : 1 ≤ n ∧ n ≤ rest.length := by
  unfold matchDelim at h
  split at h
  · split at h
    · injection h with h
      subst h
      simp only [List.length_cons]
      omega
    · exact absurd h (by simp)
  · exact absurd h (by simp)

theorem matchFloat_bound {rest : List Char} {n : Nat}
    (h : matchFloat rest = some n) : 1 ≤ n ∧ n ≤ rest.length := by
  simp only [matchFloat] at h
  split at h
  · exact absurd h (by simp)
  · split at h
    · rename_i after heq
      split at h
      · exact absurd h (by simp)
      · injection h with h
        have h2 := takeWhile_length_le Char.isDigit after
        have h3 := length_takeWhile_add Char.isDigit rest
        have h4 : (rest.dropWhile Char.isDigit).length = after.length + 1 := by rw [heq]; simp
        omega
    · exact absurd h (by simp)

theorem matchInt_bound {rest : List Char} {n : Nat}
    (h : matchInt rest = some n) : 1 ≤ n ∧ n ≤ rest.length := by
  simp only [matchInt] at h
  split at h
  · exact absurd h (by simp)
  · injection h with h
    have h2 := takeWhile_length_le Char.isDigit rest
    omega

theorem matchId_bound {rest : List Char} {n : Nat}
    (h : matchId rest = some n) : 1 ≤ n ∧ n ≤ rest.length := by
  unfold matchId at h
  split at h
  · split at h
    · rename_i c cs _
      injection h with h
      have h2 := takeWhile_length_le isIdChar cs
      simp only [List.length_cons]
      omega
    · exact absurd h (by simp)
  · exact absurd h (by simp)

theorem matchNewline_bound {rest : List Char} {n : Nat}
    (h : matchNewline rest = some n) : 1 ≤ n ∧ n ≤ rest.length := by
  simp only [matchNewline] at h
  split at h
  · exact absurd h (by simp)
  · injection h with h
    have h2 := takeWhile_length_le (fun c => c == '\n') rest
    omega

theorem matchSkip_bound {rest : List Char} {n : Nat}
    (h : matchSkip rest = some n) : 1 ≤ n ∧ n ≤ rest.length := by
  simp only [matchSkip] at h
  split at h
  · exact absurd h (by simp)
  · injection h with h
    have h2 := takeWhile_length_le isSpTab rest
    omega

theorem scanMatch_bound (ls : Bool) (c : Char) (cs : List Char) :
    1 ≤ (scanMatch ls (c :: cs)).2 ∧ (scanMatch ls (c :: cs)).2 ≤ (c :: cs).length := by
  unfold scanMatch
  split
  · exact matchPP_bound (by assumption)
  split
  · exact matchCommentBlock_bound (by assumption)
  split
  · exact matchCommentLine_bound (by assumption)
  split
  · exact matchString_bound (by assumption)
  split
  · exact matchChar_bound (by assumption)
  split
  · exact matchNumIdError_bound (by assumption)
  split
  · exact matchNumberComma_bound (by assumption)
  split
  · exact matchEllipsis_bound (by assumption)
  split
  · exact matchOp3_bound (by assumption)
  split
  · exact matchOp2_bound (by assumption)
  split
  · exact matchOp1_bound (by assumption)
  split
  · exact matchDelim_bound (by assumption)
  split
  · exact matchFloat_bound (by assumption)
  split
  · exact matchInt_bound (by assumption)
  split
  · exact matchId_bound (by assumption)
  split
  · exact matchNewline_bound (by assumption)
  split
  · exact matchSkip_bound (by assumption)
  · simp

/-! ## Coverage: the matched spans tile the whole input -/

theorem rawScan_eq_drop (src : List Char) :
    ∀ (fuel pos : Nat), src.length ≤ pos + fuel → rawScan src fuel pos = src.drop pos := by
  intro fuel
  induction fuel with
  | zero =>
      intro pos h
      have hnil : src.drop pos = [] := List.drop_eq_nil_iff.mpr (by omega)
      simp [rawScan, hnil]
  | succ n ih =>
      intro pos h
      simp only [rawScan]
      cases hd : src.drop pos with
      | nil => rfl
      | cons c cs =>
          obtain ⟨hb1, hb2⟩ := scanMatch_bound (lineStartAt src pos) c cs
          have hlen : (c :: cs).length = src.length - pos := by
            rw [← hd, List.length_drop]
          have hpos : pos < src.length := by
            simp only [List.length_cons] at hlen
            omega
          have hdd : src.drop (pos + (scanMatch (lineStartAt src pos) (c :: cs)).2) =
              (c :: cs).drop (scanMatch (lineStartAt src pos) (c :: cs)).2 := by
            rw [← hd, List.drop_drop]
          have key : (c :: cs).take (scanMatch (lineStartAt src pos) (c :: cs)).2 ++
              rawScan src n (pos + (scanMatch (lineStartAt src pos) (c :: cs)).2) = c :: cs := by
            rw [ih _ (by omega), hdd, List.take_append_drop]
          exact key

/-! ## The loop only ever appends tokens; kinds and lexemes are state-independent -/

theorem add_symbol_tokens (name : String) (st : LexState) :
    (add_symbol name st).2.tokens = st.tokens := by
  unfold add_symbol
  rcases h : lookupSym st.symbols name with _ | e <;> rfl

theorem classify_kl (k : MKind) (lex : List Char) (l c : Nat) (st : LexState) :
    ((classify k lex l c st).tokens).map klProj = st.tokens.map klProj ++ klToks k lex := by
  cases k <;> try simp [classify, klToks, klProj]
  by_cases hk : String.mk lex ∈ keywords
  · simp [classify, klToks, klProj, hk]
  · simp [classify, klToks, klProj, hk, add_symbol_tokens]

theorem classify_tokens_append (k : MKind) (lex : List Char) (l c : Nat) (st : LexState) :
    ∃ d, (classify k lex l c st).tokens = st.tokens ++ d := by
  cases k
  case ID =>
    by_cases hk : String.mk lex ∈ keywords
    · exact ⟨[{ kind := "KEYWORD", lexeme := String.mk lex, attr := none, line := l, col := c }],
              by simp [classify, hk]⟩
    · exact ⟨[{ kind := "IDENTIFIER", lexeme := String.mk lex,
                attr := some (.str (add_symbol (String.mk lex) st).1), line := l, col := c }],
              by simp [classify, hk, add_symbol_tokens]⟩
  case COMMENT_BLOCK => exact ⟨[], by simp [classify]⟩
  case COMMENT_LINE => exact ⟨[], by simp [classify]⟩
  case SKIP => exact ⟨[], by simp [classify]⟩
  case NEWLINE => exact ⟨[], by simp [classify]⟩
  all_goals exact ⟨_, rfl⟩

theorem runScan_preserve (src : List Char) (P : LexState → Prop)
    (hstep : ∀ k lex l c st, P st → P (classify k lex l c st)) :
    ∀ (fuel pos : Nat) (st : LexState), P st → P (runScan src fuel pos st) := by
  intro fuel
  induction fuel with
  | zero => intro pos st h; exact h
  | succ n ih =>
      intro pos st h
      simp only [runScan]
      cases hd : src.drop pos with
      | nil => exact h
      | cons c cs => exact ih _ _ (hstep _ _ _ _ _ h)

theorem runScan_kl (src : List Char) :
    ∀ (fuel pos : Nat) (st : LexState),
      ((runScan src fuel pos st).tokens).map klProj =
        st.tokens.map klProj ++ klScan src fuel pos := by
  intro fuel
  induction fuel with
  | zero => intro pos st; simp [runScan, klScan]
  | succ n ih =>
      intro pos st
      simp only [runScan, klScan]
      cases hd : src.drop pos with
      | nil => simp
      | cons c cs => rw [ih, classify_kl, List.append_assoc]

theorem runScan_tokens_append (src : List Char) :
    ∀ (fuel pos : Nat) (st : LexState), ∃ d, (runScan src fuel pos st).tokens = st.tokens ++ d := by
  intro fuel
  induction fuel with
  | zero => intro pos st; exact ⟨[], by simp [runScan]⟩
  | succ n ih =>
      intro pos st
      simp only [runScan]
      cases hd : src.drop pos with
      | nil => exact ⟨[], by simp⟩
      | cons c cs =>
          rcases classify_tokens_append
            (scanMatch (lineStartAt src pos) (c :: cs)).1
            ((c :: cs).take (scanMatch (lineStartAt src pos) (c :: cs)).2)
            (get_line_col src pos).1 (get_line_col src pos).2 st with ⟨d1, hd1⟩
          rcases ih (pos + (scanMatch (lineStartAt src pos) (c :: cs)).2)
            (classify (scanMatch (lineStartAt src pos) (c :: cs)).1
              ((c :: cs).take (scanMatch (lineStartAt src pos) (c :: cs)).2)
              (get_line_col src pos).1 (get_line_col src pos).2 st) with ⟨d2, hd2⟩
          exact ⟨d1 ++ d2, by rw [hd2, hd1, List.append_assoc]⟩

/-! ## The operator/delimiter categories never collide with other token kinds -/

theorem opDelimCategory_ne (s : String) :
    opDelimCategory s ≠ "EOF" ∧ opDelimCategory s ≠ "IDENTIFIER" ∧
    opDelimCategory s ≠ "STRING_LITERAL" ∧ opDelimCategory s ≠ "CHAR_LITERAL" := by
  unfold opDelimCategory categorize_op_or_delim flat_op_to_cat
  repeat' split
  all_goals decide

theorem klToks_no_eof (k : MKind) (lex : List Char) :
    ∀ p ∈ klToks k lex, ¬(p.1 = "EOF") := by
  intro p hp
  cases k
  all_goals simp [klToks] at hp
  all_goals subst hp
  all_goals try exact (opDelimCategory_ne (String.mk lex)).1
  all_goals try simp
  all_goals (split <;> simp)

theorem klScan_no_eof (src : List Char) :
    ∀ (fuel pos : Nat), (klScan src fuel pos).countP (fun q => q.1 == "EOF") = 0 := by
  intro fuel
  induction fuel with
  | zero => intro pos; simp [klScan]
  | succ n ih =>
      intro pos
      simp only [klScan]
      cases hd : src.drop pos with
      | nil => simp
      | cons c cs =>
          rw [List.countP_append, ih]
          have hz : (klToks (scanMatch (lineStartAt src pos) (c :: cs)).1
              ((c :: cs).take (scanMatch (lineStartAt src pos) (c :: cs)).2)).countP
              (fun q => q.1 == "EOF") = 0 := by
            rw [List.countP_eq_zero]
            intro p hp
            have h := klToks_no_eof _ _ p hp
            simpa using h
          omega

theorem tokenize_tokens_split (source : String) :
    (tokenize source).tokens =
      (runScan source.data source.data.length 0 initState).tokens ++
      [{ kind := "EOF", lexeme := "", attr := none,
         line := (get_line_col source.data source.data.length).1,
         col := (get_line_col source.data source.data.length).2 }] := rfl

theorem runScan_no_eof_from_init (source : String) :
    (runScan source.data source.data.length 0 initState).tokens.countP
      (fun t => t.kind == "EOF") = 0 := by
  have hkl := runScan_kl source.data source.data.length 0 initState
  simp only [initState, List.map_nil, List.nil_append] at hkl
  have h := klScan_no_eof source.data source.data.length 0
  rw [← hkl, List.countP_map] at h
  simpa [Function.comp, klProj] using h

/-- Claim C1: for every input source text, `tokenize` (a total function in
this embedding) returns a token stream that ends with exactly one `EOF`
token whose lexeme is empty and whose (line, column) position is the one
computed at offset `length of the input` — i.e. the position equals the
input length. -/
theorem claim_C1_termination_eof (source : String) :
    (tokenize source).tokens.getLast? =
      some { kind := "EOF", lexeme := "", attr := none,
             line := (get_line_col source.data source.data.length).1,
             col := (get_line_col source.data source.data.length).2 } ∧
    (tokenize source).tokens.countP (fun t => t.kind == "EOF") = 1 := by
  constructor
  · rw [tokenize_tokens_split]
    exact List.getLast?_concat _
  · rw [tokenize_tokens_split, List.countP_append, runScan_no_eof_from_init]
    simp

/-! ## Reconstruction (claim C2) -/

theorem take_takeWhile_length (p : α → Bool) (l : List α) :
    l.take ((l.takeWhile p).length) = l.takeWhile p := by
  induction l with
  | nil => simp
  | cons a l ih =>
      by_cases h : p a
      · simp [List.takeWhile_cons_of_pos h, ih]
      · simp [List.takeWhile_cons_of_neg h]

theorem matchPP_take_no_nl {ls : Bool} {rest : List Char} {n : Nat}
    (h : matchPP ls rest = some n) : ∀ x ∈ rest.take n, ¬(x = '\n') := by
  unfold matchPP at h
  split at h
  · split at h
    · rename_i after heq
      set t1 := rest.takeWhile isSpTab with ht1
      set t2 := after.takeWhile (fun c => c != '\n') with ht2
      injection h with h
      subst h
      have hsplit : rest = t1 ++ '#' :: after := by
        conv_lhs => rw [← List.takeWhile_append_dropWhile (p := isSpTab) (l := rest)]
        rw [heq]
      have htake : rest.take (t1.length + 1 + t2.length) = t1 ++ '#' :: t2 := by
        conv_lhs => rw [hsplit]
        rw [List.take_append_eq_append_take,
            List.take_of_length_le (by omega),
            show t1.length + 1 + t2.length - t1.length = t2.length + 1 from by omega,
            List.take_succ_cons]
        rw [ht2, take_takeWhile_length]
      rw [htake]
      intro x hx
      rcases List.mem_append.mp hx with hx1 | hx2
      · have hp := mem_takeWhile_pred (ht1 ▸ hx1)
        intro hxe
        rw [hxe] at hp
        simp [isSpTab] at hp
      · rcases List.mem_cons.mp hx2 with rfl | hx3
        · intro hxe
          exact absurd hxe (by decide)
        · have hp := mem_takeWhile_pred (ht2 ▸ hx3)
          intro hxe
          rw [hxe] at hp
          simp at hp
    · exact absurd h (by simp)
  · exact absurd h (by simp)

theorem rstripCRLF_eq_self {l : List Char} (h : ∀ x ∈ l, ¬(x = '\r' ∨ x = '\n')) :
    rstripCRLF l = l := by
  unfold rstripCRLF
  have hrev : l.reverse.dropWhile (fun c => c == '\r' || c == '\n') = l.reverse := by
    cases hr : l.reverse with
    | nil => simp
    | cons a t =>
        rw [List.dropWhile_cons]
        have ha : a ∈ l := by
          have h2 : a ∈ l.reverse := by rw [hr]; exact List.mem_cons_self a t
          simpa using h2
        have hna := h a ha
        rw [if_neg (by simpa using hna)]
  rw [hrev, List.reverse_reverse]

theorem contribOf_pp (lex : List Char) :
    contribOf MKind.PP_DIRECTIVE lex = rstripCRLF lex := by
  simp [contribOf, klToks]

theorem contribOf_ne_pp (k : MKind) (lex : List Char) (h : ¬(k = MKind.PP_DIRECTIVE)) :
    contribOf k lex = lex := by
  cases k
  case PP_DIRECTIVE => exact absurd rfl h
  all_goals simp [contribOf, klToks]

theorem scanMatch_pp {ls : Bool} {rest : List Char}
    (hk : (scanMatch ls rest).1 = MKind.PP_DIRECTIVE) :
    matchPP ls rest = some (scanMatch ls rest).2 := by
  rcases hm : matchPP ls rest with _ | m
  · exfalso
    unfold scanMatch at hk
    rw [hm] at hk
    repeat' split at hk
    all_goals simp_all
  · unfold scanMatch
    rw [hm]

theorem reconScan_eq_rawScan (src : List Char) (hcr : ∀ x ∈ src, ¬(x = '\r')) :
    ∀ (fuel pos : Nat), reconScan src fuel pos = rawScan src fuel pos := by
  intro fuel
  induction fuel with
  | zero => intro pos; rfl
  | succ n ih =>
      intro pos
      simp only [reconScan, rawScan]
      cases hd : src.drop pos with
      | nil => rfl
      | cons c cs =>
          have hco : contribOf (scanMatch (lineStartAt src pos) (c :: cs)).1
              ((c :: cs).take (scanMatch (lineStartAt src pos) (c :: cs)).2) =
              (c :: cs).take (scanMatch (lineStartAt src pos) (c :: cs)).2 := by
            by_cases hpp : (scanMatch (lineStartAt src pos) (c :: cs)).1 = MKind.PP_DIRECTIVE
            · rw [hpp, contribOf_pp]
              have hps := scanMatch_pp hpp
              have hnl := matchPP_take_no_nl hps
              rw [rstripCRLF_eq_self]
              intro x hx
              have hmem : x ∈ src := by
                have h1 : x ∈ c :: cs := List.mem_of_mem_take hx
                rw [← hd] at h1
                exact List.mem_of_mem_drop h1
              exact fun hor => hor.elim (fun he => hcr x hmem he) (fun he => hnl x hx he)
            · rw [contribOf_ne_pp _ _ hpp]
          have key : contribOf (scanMatch (lineStartAt src pos) (c :: cs)).1
                ((c :: cs).take (scanMatch (lineStartAt src pos) (c :: cs)).2) ++
                reconScan src n (pos + (scanMatch (lineStartAt src pos) (c :: cs)).2) =
              (c :: cs).take (scanMatch (lineStartAt src pos) (c :: cs)).2 ++
                rawScan src n (pos + (scanMatch (lineStartAt src pos) (c :: cs)).2) := by
            rw [ih, hco]
          exact key

theorem tokenize_lexemes (source : String) :
    (tokenize source).tokens.dropLast.map (fun t => t.lexeme) =
      (klScan source.data source.data.length 0).map (fun p => p.2) := by
  have hdl : (tokenize source).tokens.dropLast =
      (runScan source.data source.data.length 0 initState).tokens := by
    rw [tokenize_tokens_split]
    exact List.dropLast_concat
  rw [hdl]
  have hkl := runScan_kl source.data source.data.length 0 initState
  simp only [initState, List.map_nil, List.nil_append] at hkl
  rw [← hkl, List.map_map]
  rfl

/-- Claim C2 counterexample: on the input `"#a\r\n"` the scanner matches the
preprocessor-directive span `#a\r` but stores its lexeme with
`rstrip("\r\n")` applied (src/main.py line 133), so the concatenation, in
source order, of every emitted token's lexeme plus every skipped
whitespace/comment span is `"#a\n"`, not the original source — the claimed
exact reconstruction fails. -/
theorem claim_C2_counterexample :
    String.mk (reconScan "#a\r\n".data "#a\r\n".data.length 0) = "#a\n" ∧
    ¬("#a\n" = ("#a\r\n" : String)) ∧
    (tokenize "#a\r\n").tokens.dropLast.map (fun t => t.lexeme) = ["#a"] ∧
    (klScan "#a\r\n".data "#a\r\n".data.length 0) = [("PP_DIRECTIVE", "#a")] := by
  exact ⟨by decide, by decide, by decide, by decide⟩

/-- Claim C2 (amended): the emitted tokens' lexemes are exactly the stored
lexemes of the non-skipped spans in source order; the raw matched spans
always reconstruct the source exactly (no gaps, no overlaps); and for every
input containing no carriage return, the concatenation in source order of
every emitted token's stored lexeme plus every skipped whitespace/comment
span reconstructs the source exactly.  The amendment restricts the
stored-lexeme reconstruction to CR-free inputs, because `tokenize` stores
`PP_DIRECTIVE` lexemes with trailing `"\r\n"` characters stripped. -/
theorem claim_C2_reconstruction (source : String) :
    ((tokenize source).tokens.dropLast.map (fun t => t.lexeme) =
        (klScan source.data source.data.length 0).map (fun p => p.2)) ∧
    String.mk (rawScan source.data source.data.length 0) = source ∧
    ((∀ x ∈ source.data, ¬(x = '\r')) →
      String.mk (reconScan source.data source.data.length 0) = source) := by
  refine ⟨tokenize_lexemes source, ?_, ?_⟩
  · rw [rawScan_eq_drop source.data source.data.length 0 (by omega)]
    rfl
  · intro h
    rw [reconScan_eq_rawScan source.data h,
        rawScan_eq_drop source.data source.data.length 0 (by omega)]
    rfl

/-- Witness for the amended claim C2 at a concrete CR-free input exercising
a directive, comments, whitespace, literals and operators. -/
theorem claim_C2_reconstruction_witness :
    String.mk (reconScan "#d x\nint y=1.5; //c".data "#d x\nint y=1.5; //c".data.length 0) =
      "#d x\nint y=1.5; //c" :=
  (claim_C2_reconstruction "#d x\nint y=1.5; //c").2.2 (by decide)

/-! ## What the scanner does at an unmatched quote and at an unclosed block comment -/

theorem scanMatch_quote_mismatch (ls : Bool) (cs : List Char)
    (hs : matchString ('"' :: cs) = none) :
    scanMatch ls ('"' :: cs) = (MKind.MISMATCH, 1) := by
  have hpp : matchPP ls ('"' :: cs) = none := by
    unfold matchPP
    cases ls
    · rfl
    · rw [if_pos rfl, List.dropWhile_cons, if_neg (by decide)]
      rfl
  have hop2 : matchOp2 ('"' :: cs) = none := by
    cases cs with
    | nil => rfl
    | cons b bs => simp [matchOp2, isOp2]
  simp only [scanMatch, hpp, hs, hop2]
  rfl

theorem scanMatch_squote_mismatch (ls : Bool) (cs : List Char)
    (hc : matchChar ('\'' :: cs) = none) :
    scanMatch ls ('\'' :: cs) = (MKind.MISMATCH, 1) := by
  have hpp : matchPP ls ('\'' :: cs) = none := by
    unfold matchPP
    cases ls
    · rfl
    · rw [if_pos rfl, List.dropWhile_cons, if_neg (by decide)]
      rfl
  have hop2 : matchOp2 ('\'' :: cs) = none := by
    cases cs with
    | nil => rfl
    | cons b bs => simp [matchOp2, isOp2]
  simp only [scanMatch, hpp, hc, hop2]
  rfl

theorem scanMatch_slash_star (ls : Bool) (cs : List Char)
    (hstar : findStarSlash cs = none) :
    scanMatch ls ('/' :: '*' :: cs) = (MKind.OP_1, 1) := by
  have hpp : matchPP ls ('/' :: '*' :: cs) = none := by
    unfold matchPP
    cases ls
    · rfl
    · rw [if_pos rfl, List.dropWhile_cons, if_neg (by decide)]
      rfl
  have hcb : matchCommentBlock ('/' :: '*' :: cs) = none := by
    have hdef : matchCommentBlock ('/' :: '*' :: cs) = (findStarSlash cs).map (fun k => k + 2) := rfl
    rw [hdef, hstar]
    rfl
  simp only [scanMatch, hpp, hcb]
  rfl

theorem scanMatch_star (ls : Bool) (cs : List Char)
    (heq : ¬(cs.head? = some '=')) :
    scanMatch ls ('*' :: cs) = (MKind.OP_1, 1) := by
  have hpp : matchPP ls ('*' :: cs) = none := by
    unfold matchPP
    cases ls
    · rfl
    · rw [if_pos rfl, List.dropWhile_cons, if_neg (by decide)]
      rfl
  have hop2 : matchOp2 ('*' :: cs) = none := by
    cases cs with
    | nil => rfl
    | cons b bs =>
        have hb : ¬(b = '=') := by
          intro hb
          exact heq (by rw [hb]; rfl)
        simp [matchOp2, isOp2, hb]
  simp only [scanMatch, hpp, hop2]
  rfl

/-! ## Claims C3, C4, C8, C10: error handling at quotes and unclosed comments -/

/-- Claim C3 counterexample: on the input `"abc` (opening double quote,
no closing quote before end of input) the scanner does not emit any token
with the message "unterminated string literal"; it emits an ERROR token
for the quote character alone with the generic message
"caractere inesperado", followed by an ordinary identifier token. -/
theorem claim_C3_counterexample :
    (tokenize "\"abc").tokens =
      [{ kind := "ERROR", lexeme := "\"", attr := some (.str "caractere inesperado"),
         line := 1, col := 1 },
       { kind := "IDENTIFIER", lexeme := "abc", attr := some (.str "id1"), line := 1, col := 2 },
       { kind := "EOF", lexeme := "", attr := none, line := 1, col := 5 }] ∧
    (tokenize "\"abc").tokens.countP
      (fun t => t.attr == some (.str "unterminated string literal")) = 0 := by
  exact ⟨by decide, by decide⟩

/-- Claim C3 (amended): the scanner has no unterminated-string detector.
At any position where the remaining input starts with a double quote that
the (closed-)string pattern does not match — i.e. no matching closing
quote before end of line/input — the first applicable alternative is the
single-character MISMATCH fallback, so exactly one ERROR token with
message "caractere inesperado" and lexeme `"` is emitted for the quote,
and scanning resumes at the next character (the following characters are
tokenized as ordinary source, not as a cascade of errors for the whole
span). -/
theorem claim_C3_amended (src : List Char) (pos : Nat) (cs : List Char)
    (hd : src.drop pos = '"' :: cs)
    (hs : matchString ('"' :: cs) = none) :
    scanMatch (lineStartAt src pos) (src.drop pos) = (MKind.MISMATCH, 1) ∧
    (∀ (l c : Nat) (st : LexState),
      (classify MKind.MISMATCH ['"'] l c st).tokens =
        st.tokens ++ [{ kind := "ERROR", lexeme := "\"",
                        attr := some (.str "caractere inesperado"), line := l, col := c }]) := by
  constructor
  · rw [hd]
    exact scanMatch_quote_mismatch _ cs hs
  · intro l c st
    rfl

/-- Witness for the amended claim C3 at the concrete input `"abc`. -/
theorem claim_C3_amended_witness :
    scanMatch (lineStartAt "\"abc".data 0) ("\"abc".data.drop 0) = (MKind.MISMATCH, 1) :=
  (claim_C3_amended "\"abc".data 0 "abc".data (by decide) (by decide)).1

/-- Claim C4 counterexample: a single-quoted run with two literal
characters, `'ab'`, does not produce an ERROR token with message
"character literal with multiple characters"; the char pattern simply
fails, each quote is reported as an unexpected character, and `ab` is
scanned as an identifier (exactly as the test comment in src/main.py
line 246 describes). -/
theorem claim_C4_counterexample :
    (tokenize (String.mk ['\'', 'a', 'b', '\''])).tokens =
      [{ kind := "ERROR", lexeme := String.mk ['\''],
         attr := some (.str "caractere inesperado"), line := 1, col := 1 },
       { kind := "IDENTIFIER", lexeme := "ab", attr := some (.str "id1"), line := 1, col := 2 },
       { kind := "ERROR", lexeme := String.mk ['\''],
         attr := some (.str "caractere inesperado"), line := 1, col := 4 },
       { kind := "EOF", lexeme := "", attr := none, line := 1, col := 5 }] ∧
    (tokenize (String.mk ['\'', 'a', 'b', '\''])).tokens.countP
      (fun t => t.attr == some (.str "character literal with multiple characters")) = 0 := by
  exact ⟨by decide, by decide⟩

/-- Claim C4 (amended): no multi-character-literal diagnostic exists.  At
any position where the remaining input starts with a single quote that the
char pattern does not match (in particular a quoted run of two or more
literal characters), the MISMATCH fallback fires: one ERROR token with
message "caractere inesperado" is emitted for the quote alone and the
content is rescanned as ordinary source. -/
theorem claim_C4_amended (src : List Char) (pos : Nat) (cs : List Char)
    (hd : src.drop pos = '\'' :: cs)
    (hc : matchChar ('\'' :: cs) = none) :
    scanMatch (lineStartAt src pos) (src.drop pos) = (MKind.MISMATCH, 1) ∧
    (∀ (l c : Nat) (st : LexState),
      (classify MKind.MISMATCH ['\''] l c st).tokens =
        st.tokens ++ [{ kind := "ERROR", lexeme := String.mk ['\''],
                        attr := some (.str "caractere inesperado"), line := l, col := c }]) := by
  constructor
  · rw [hd]
    exact scanMatch_squote_mismatch _ cs hc
  · intro l c st
    rfl

/-- Witness for the amended claim C4 at the concrete input `'ab'`. -/
theorem claim_C4_amended_witness :
    scanMatch (lineStartAt (String.mk ['\'', 'a', 'b', '\'']).data 0)
        ((String.mk ['\'', 'a', 'b', '\'']).data.drop 0) = (MKind.MISMATCH, 1) :=
  (claim_C4_amended (String.mk ['\'', 'a', 'b', '\'']).data 0 ['a', 'b', '\'']
    (by decide) (by decide)).1

/-- Claim C8 counterexample: the empty quote pair `''` is not accepted as
a char literal — the scan of `''` emits zero CHAR_LITERAL tokens and two
ERROR tokens (the char pattern requires exactly one character or escape
between the quotes). -/
theorem claim_C8_counterexample :
    (tokenize (String.mk ['\'', '\''])).tokens.countP
      (fun t => t.kind == "CHAR_LITERAL") = 0 ∧
    (tokenize (String.mk ['\'', '\''])).tokens.countP
      (fun t => t.kind == "ERROR") = 2 := by
  exact ⟨by decide, by decide⟩

/-- Claim C8 (amended): `''` is rejected, not accepted: the CHAR pattern
`'(?:\\.|[^'\\\n])'` does not match an empty pair of quotes, so scanning
`''` yields two ERROR tokens with message "caractere inesperado" (one per
quote) and then EOF. -/
theorem claim_C8_empty_char_rejected :
    matchChar ['\'', '\''] = none ∧
    (tokenize (String.mk ['\'', '\''])).tokens =
      [{ kind := "ERROR", lexeme := String.mk ['\''],
         attr := some (.str "caractere inesperado"), line := 1, col := 1 },
       { kind := "ERROR", lexeme := String.mk ['\''],
         attr := some (.str "caractere inesperado"), line := 1, col := 2 },
       { kind := "EOF", lexeme := "", attr := none, line := 1, col := 3 }] := by
  exact ⟨by decide, by decide⟩

/-- Claim C10 counterexample: an opening `/*` with no closing `*/` is not
always scanned as two ARITH_OP tokens — on the input `/*=` the `*` merges
with the following `=` into a single ASSIGN_OP token `*=`. -/
theorem claim_C10_counterexample :
    (tokenize "/*=").tokens =
      [{ kind := "ARITH_OP", lexeme := "/", attr := none, line := 1, col := 1 },
       { kind := "ASSIGN_OP", lexeme := "*=", attr := none, line := 1, col := 2 },
       { kind := "EOF", lexeme := "", attr := none, line := 1, col := 4 }] ∧
    (tokenize "/*=").tokens.countP (fun t => t.kind == "ARITH_OP") = 1 := by
  exact ⟨by decide, by decide⟩

/-- Claim C10 (amended): an opening `/*` whose remainder contains no
closing `*/` is neither skipped nor reported as an error: the block-comment
pattern fails, the `/` is emitted as a single-character ARITH_OP token, and
scanning resumes at the `*`, which is tokenized as ordinary source — as an
ARITH_OP token of its own unless it merges with an immediately following
`=` into the two-character operator `*=`. -/
theorem claim_C10_unclosed_comment (src : List Char) (pos : Nat) (cs : List Char)
    (hd : src.drop pos = '/' :: '*' :: cs)
    (hstar : findStarSlash cs = none) :
    scanMatch (lineStartAt src pos) (src.drop pos) = (MKind.OP_1, 1) ∧
    opDelimCategory "/" = "ARITH_OP" ∧
    src.drop (pos + 1) = '*' :: cs ∧
    (¬(cs.head? = some '=') →
      scanMatch (lineStartAt src (pos + 1)) (src.drop (pos + 1)) = (MKind.OP_1, 1)) ∧
    opDelimCategory "*" = "ARITH_OP" := by
  have hd1 : src.drop (pos + 1) = '*' :: cs := by
    have hdd : src.drop (pos + 1) = (src.drop pos).drop 1 := by
      rw [List.drop_drop]
    rw [hdd, hd]
    rfl
  refine ⟨?_, by decide, hd1, ?_, by decide⟩
  · rw [hd]
    exact scanMatch_slash_star _ cs hstar
  · intro hne
    rw [hd1]
    exact scanMatch_star _ cs hne

/-- Witness for the amended claim C10 at the concrete input `/*x`. -/
theorem claim_C10_unclosed_comment_witness :
    scanMatch (lineStartAt "/*x".data 0) ("/*x".data.drop 0) = (MKind.OP_1, 1) ∧
    scanMatch (lineStartAt "/*x".data 1) ("/*x".data.drop 1) = (MKind.OP_1, 1) :=
  ⟨(claim_C10_unclosed_comment "/*x".data 0 "x".data (by decide) (by decide)).1,
   (claim_C10_unclosed_comment "/*x".data 0 "x".data (by decide) (by decide)).2.2.2.1 (by decide)⟩

/-! ## Claim C7: literal attributes are the raw quoted content -/

theorem classify_lit_step (k : MKind) (lex : List Char) (l c : Nat) (st : LexState)
    (h : ∀ t ∈ st.tokens, litAttrOK t) :
    ∀ t ∈ (classify k lex l c st).tokens, litAttrOK t := by
  cases k
  case COMMENT_BLOCK => exact h
  case COMMENT_LINE => exact h
  case SKIP => exact h
  case NEWLINE => exact h
  case STRING =>
    intro t ht
    simp only [classify] at ht
    rcases List.mem_append.mp ht with h1 | h2
    · exact h t h1
    · rw [List.mem_singleton] at h2
      subst h2
      constructor
      · intro _
        rfl
      · intro hkind
        simp at hkind
  case CHAR =>
    intro t ht
    simp only [classify] at ht
    rcases List.mem_append.mp ht with h1 | h2
    · exact h t h1
    · rw [List.mem_singleton] at h2
      subst h2
      constructor
      · intro hkind
        simp at hkind
      · intro _
        rfl
  case ID =>
    intro t ht
    by_cases hk : String.mk lex ∈ keywords
    · simp only [classify, if_pos hk] at ht
      rcases List.mem_append.mp ht with h1 | h2
      · exact h t h1
      · rw [List.mem_singleton] at h2
        subst h2
        constructor <;> intro hkind <;> simp at hkind
    · simp only [classify, if_neg hk] at ht
      rw [add_symbol_tokens] at ht
      rcases List.mem_append.mp ht with h1 | h2
      · exact h t h1
      · rw [List.mem_singleton] at h2
        subst h2
        constructor <;> intro hkind <;> simp at hkind
  all_goals
    (intro t ht
     simp only [classify] at ht
     rcases List.mem_append.mp ht with h1 | h2
     · exact h t h1
     · rw [List.mem_singleton] at h2
       subst h2
       refine ⟨fun hkind => absurd hkind ?_, fun hkind => absurd hkind ?_⟩
       · first
           | exact (opDelimCategory_ne (String.mk lex)).2.2.1
           | simp
       · first
           | exact (opDelimCategory_ne (String.mk lex)).2.2.2
           | simp)

/-- Claim C7 counterexample: the string literal `"\n"` (backslash-n inside
the quotes) is stored with attribute `\n` as two raw characters
(backslash, n), not the decoded newline character: `tokenize` takes
`lexeme[1:-1]` verbatim and decodes no escape sequences, so the claimed
"decoded content" attribute is false. -/
theorem claim_C7_counterexample :
    (tokenize (String.mk ['"', '\\', 'n', '"'])).tokens =
      [{ kind := "STRING_LITERAL", lexeme := String.mk ['"', '\\', 'n', '"'],
         attr := some (.str (String.mk ['\\', 'n'])), line := 1, col := 1 },
       { kind := "EOF", lexeme := "", attr := none, line := 1, col := 5 }] ∧
    ¬(String.mk ['\\', 'n'] = String.mk ['\n']) := by
  exact ⟨by decide, by decide⟩

/-- Claim C7 (amended): for every scanned string or char literal, the
emitted token's attribute is the literal's content without the surrounding
quotes taken verbatim (`lexeme[1:-1]`), with escape sequences left
undecoded. -/
theorem claim_C7_literal_attr (source : String) :
    ∀ t ∈ (tokenize source).tokens, litAttrOK t := by
  have hscan := runScan_preserve source.data (fun st => ∀ t ∈ st.tokens, litAttrOK t)
    (fun k lex l c st h => classify_lit_step k lex l c st h)
    source.data.length 0 initState (by intro t ht; simp [initState] at ht)
  intro t ht
  rw [tokenize_tokens_split] at ht
  rcases List.mem_append.mp ht with h1 | h2
  · exact hscan t h1
  · rw [List.mem_singleton] at h2
    subst h2
    constructor <;> intro hkind <;> simp at hkind

/-- Witness for the amended claim C7: the string literal `"hi"` in a
concrete scan carries attribute `hi`. -/
theorem claim_C7_literal_attr_witness :
    litAttrOK { kind := "STRING_LITERAL", lexeme := "\"hi\"",
                attr := some (.str "hi"), line := 1, col := 1 } :=
  claim_C7_literal_attr "\"hi\"" _ (by decide)

/-! ## Symbol-table facts -/

theorem countOf_eq_some {tab : List (String × SymEntry)} {name : String} {e : SymEntry}
    (h : lookupSym tab name = some e) : countOf tab name = e.count := by
  unfold countOf
  rw [h]

theorem countOf_eq_none {tab : List (String × SymEntry)} {name : String}
    (h : lookupSym tab name = none) : countOf tab name = 0 := by
  unfold countOf
  rw [h]

theorem lookupSym_append_self (tab : List (String × SymEntry)) (name : String) (e : SymEntry)
    (h : lookupSym tab name = none) : lookupSym (tab ++ [(name, e)]) name = some e := by
  induction tab with
  | nil => simp [lookupSym]
  | cons p rest ih =>
      obtain ⟨k, e'⟩ := p
      by_cases hk : k = name
      · rw [show lookupSym ((k, e') :: rest) name = some e' from by simp [lookupSym, hk]] at h
        exact absurd h (by simp)
      · rw [show lookupSym ((k, e') :: rest) name = lookupSym rest name from by
              simp [lookupSym, hk]] at h
        rw [show (k, e') :: rest ++ [(name, e)] = (k, e') :: (rest ++ [(name, e)]) from rfl]
        rw [show lookupSym ((k, e') :: (rest ++ [(name, e)])) name =
              lookupSym (rest ++ [(name, e)]) name from by simp [lookupSym, hk]]
        exact ih h

theorem lookupSym_append_other (tab : List (String × SymEntry)) (name name' : String)
    (e : SymEntry) (h : ¬(name' = name)) :
    lookupSym (tab ++ [(name, e)]) name' = lookupSym tab name' := by
  induction tab with
  | nil =>
      have hne : ¬(name = name') := fun hh => h hh.symm
      simp only [List.nil_append]
      rw [show lookupSym [(name, e)] name' = none from by simp [lookupSym, hne]]
      rfl
  | cons p rest ih =>
      obtain ⟨k, e'⟩ := p
      by_cases hk : k = name'
      · simp [lookupSym, hk]
      · rw [show (k, e') :: rest ++ [(name, e)] = (k, e') :: (rest ++ [(name, e)]) from rfl]
        rw [show lookupSym ((k, e') :: (rest ++ [(name, e)])) name' =
              lookupSym (rest ++ [(name, e)]) name' from by simp [lookupSym, hk]]
        rw [show lookupSym ((k, e') :: rest) name' = lookupSym rest name' from by
              simp [lookupSym, hk]]
        exact ih

theorem lookupSym_bumpCount_self (tab : List (String × SymEntry)) (name : String) (e : SymEntry)
    (h : lookupSym tab name = some e) :
    lookupSym (bumpCount tab name) name = some { id := e.id, count := e.count + 1 } := by
  induction tab with
  | nil => simp [lookupSym] at h
  | cons p rest ih =>
      obtain ⟨k, e'⟩ := p
      by_cases hk : k = name
      · rw [show lookupSym ((k, e') :: rest) name = some e' from by simp [lookupSym, hk]] at h
        injection h with h
        subst h
        rw [show bumpCount ((k, e') :: rest) name =
              (k, { e' with count := e'.count + 1 }) :: rest from by simp [bumpCount, hk]]
        simp [lookupSym, hk]
      · rw [show lookupSym ((k, e') :: rest) name = lookupSym rest name from by
              simp [lookupSym, hk]] at h
        rw [show bumpCount ((k, e') :: rest) name = (k, e') :: bumpCount rest name from by
              simp [bumpCount, hk]]
        rw [show lookupSym ((k, e') :: bumpCount rest name) name =
              lookupSym (bumpCount rest name) name from by simp [lookupSym, hk]]
        exact ih h

theorem lookupSym_bumpCount_other (tab : List (String × SymEntry)) (name name' : String)
    (h : ¬(name' = name)) :
    lookupSym (bumpCount tab name) name' = lookupSym tab name' := by
  induction tab with
  | nil => rfl
  | cons p rest ih =>
      obtain ⟨k, e'⟩ := p
      by_cases hk : k = name
      · rw [show bumpCount ((k, e') :: rest) name =
              (k, { e' with count := e'.count + 1 }) :: rest from by simp [bumpCount, hk]]
        by_cases hk' : k = name'
        · exact absurd (hk'.symm.trans hk) h
        · rw [show lookupSym ((k, { e' with count := e'.count + 1 }) :: rest) name' =
                lookupSym rest name' from by simp [lookupSym, hk']]
          rw [show lookupSym ((k, e') :: rest) name' = lookupSym rest name' from by
                simp [lookupSym, hk']]
      · rw [show bumpCount ((k, e') :: rest) name = (k, e') :: bumpCount rest name from by
              simp [bumpCount, hk]]
        by_cases hk' : k = name'
        · simp [lookupSym, hk']
        · rw [show lookupSym ((k, e') :: bumpCount rest name) name' =
                lookupSym (bumpCount rest name) name' from by simp [lookupSym, hk']]
          rw [show lookupSym ((k, e') :: rest) name' = lookupSym rest name' from by
                simp [lookupSym, hk']]
          exact ih

theorem bumpCount_tabIds (tab : List (String × SymEntry)) (name : String) :
    tabIds (bumpCount tab name) = tabIds tab := by
  induction tab with
  | nil => rfl
  | cons p rest ih =>
      obtain ⟨k, e⟩ := p
      by_cases hk : k = name
      · simp [bumpCount, hk, tabIds]
      · simp only [bumpCount, if_neg hk, tabIds, List.map_cons]
        rw [show tabIds (bumpCount rest name) = (bumpCount rest name).map
              (fun p => (p.1, p.2.id)) from rfl] at ih
        rw [show tabIds rest = rest.map (fun p => (p.1, p.2.id)) from rfl] at ih
        rw [ih]

theorem bumpCount_map_id (tab : List (String × SymEntry)) (name : String) :
    (bumpCount tab name).map (fun p => p.2.id) = tab.map (fun p => p.2.id) := by
  have h := congrArg (List.map (fun q : String × String => q.2)) (bumpCount_tabIds tab name)
  simpa [tabIds, Function.comp] using h

theorem bumpCount_length (tab : List (String × SymEntry)) (name : String) :
    (bumpCount tab name).length = tab.length := by
  have h := congrArg List.length (bumpCount_tabIds tab name)
  simpa [tabIds] using h

theorem bumpCount_keys (tab : List (String × SymEntry)) (name : String) :
    tabKeys (bumpCount tab name) = tabKeys tab := by
  have h := congrArg (List.map (fun q : String × String => q.1)) (bumpCount_tabIds tab name)
  simpa [tabIds, tabKeys, Function.comp] using h

theorem lookupSym_eq_none_iff (tab : List (String × SymEntry)) (name : String) :
    lookupSym tab name = none ↔ ¬(name ∈ tabKeys tab) := by
  induction tab with
  | nil => simp [lookupSym, tabKeys]
  | cons p rest ih =>
      obtain ⟨k, e⟩ := p
      by_cases hk : k = name
      · subst hk
        simp [lookupSym, tabKeys]
      · rw [show lookupSym ((k, e) :: rest) name = lookupSym rest name from by
              simp [lookupSym, hk]]
        rw [ih]
        have hmem : (name ∈ tabKeys ((k, e) :: rest)) ↔ (name ∈ tabKeys rest) := by
          simp only [tabKeys, List.map_cons, List.mem_cons]
          constructor
          · intro hor
            rcases hor with he | hm
            · exact absurd he.symm hk
            · exact hm
          · intro hm
            exact Or.inr hm
        rw [hmem]

theorem add_symbol_none {name : String} {st : LexState}
    (h : lookupSym st.symbols name = none) :
    (add_symbol name st).1 = "id" ++ toString st.next_id ∧
    (add_symbol name st).2.symbols =
      st.symbols ++ [(name, { id := "id" ++ toString st.next_id, count := 1 })] ∧
    (add_symbol name st).2.next_id = st.next_id + 1 := by
  unfold add_symbol
  rw [h]
  exact ⟨rfl, rfl, rfl⟩

theorem add_symbol_some {name : String} {st : LexState} {e : SymEntry}
    (h : lookupSym st.symbols name = some e) :
    (add_symbol name st).1 = e.id ∧
    (add_symbol name st).2.symbols = bumpCount st.symbols name ∧
    (add_symbol name st).2.next_id = st.next_id := by
  unfold add_symbol
  rw [h]
  exact ⟨rfl, rfl, rfl⟩

theorem add_symbol_countOf_self (name : String) (st : LexState) :
    countOf (add_symbol name st).2.symbols name = countOf st.symbols name + 1 := by
  rcases hl : lookupSym st.symbols name with _ | e
  · rw [(add_symbol_none hl).2.1, countOf_eq_none hl,
        countOf_eq_some (lookupSym_append_self st.symbols name _ hl)]
  · rw [(add_symbol_some hl).2.1, countOf_eq_some hl,
        countOf_eq_some (lookupSym_bumpCount_self st.symbols name e hl)]

theorem add_symbol_countOf_other (name name' : String) (st : LexState)
    (h : ¬(name' = name)) :
    countOf (add_symbol name st).2.symbols name' = countOf st.symbols name' := by
  rcases hl : lookupSym st.symbols name with _ | e
  · rw [(add_symbol_none hl).2.1]
    unfold countOf
    rw [lookupSym_append_other st.symbols name name' _ h]
  · rw [(add_symbol_some hl).2.1]
    unfold countOf
    rw [lookupSym_bumpCount_other st.symbols name name' h]

/-! ## Claim C5: symbol ids are assigned sequentially from 1 in first-occurrence order -/

theorem classify_ids_step (k : MKind) (lex : List Char) (l c : Nat) (st : LexState)
    (h1 : st.symbols.map (fun p => p.2.id) =
      (List.range st.symbols.length).map (fun i => "id" ++ toString (i + 1)))
    (h2 : st.next_id = st.symbols.length + 1) :
    ((classify k lex l c st).symbols.map (fun p => p.2.id) =
      (List.range (classify k lex l c st).symbols.length).map
        (fun i => "id" ++ toString (i + 1))) ∧
    (classify k lex l c st).next_id = (classify k lex l c st).symbols.length + 1 := by
  cases k
  case ID =>
    by_cases hk : String.mk lex ∈ keywords
    · simp only [classify, if_pos hk]
      exact ⟨h1, h2⟩
    · simp only [classify, if_neg hk]
      rcases hl : lookupSym st.symbols (String.mk lex) with _ | e
      · obtain ⟨-, hsym, hnext⟩ := add_symbol_none hl
        rw [show ({ (add_symbol (String.mk lex) st).2 with
              tokens := (add_symbol (String.mk lex) st).2.tokens ++
                [{ kind := "IDENTIFIER", lexeme := String.mk lex,
                   attr := some (.str (add_symbol (String.mk lex) st).1),
                   line := l, col := c }] } : LexState).symbols =
            (add_symbol (String.mk lex) st).2.symbols from rfl]
        rw [hsym]
        constructor
        · rw [List.map_append, h1, List.length_append, h2]
          simp [List.range_succ]
        · rw [show ({ (add_symbol (String.mk lex) st).2 with
                tokens := (add_symbol (String.mk lex) st).2.tokens ++
                  [{ kind := "IDENTIFIER", lexeme := String.mk lex,
                     attr := some (.str (add_symbol (String.mk lex) st).1),
                     line := l, col := c }] } : LexState).next_id =
              (add_symbol (String.mk lex) st).2.next_id from rfl]
          rw [hnext, h2]
          simp
      · obtain ⟨-, hsym, hnext⟩ := add_symbol_some hl
        rw [show ({ (add_symbol (String.mk lex) st).2 with
              tokens := (add_symbol (String.mk lex) st).2.tokens ++
                [{ kind := "IDENTIFIER", lexeme := String.mk lex,
                   attr := some (.str (add_symbol (String.mk lex) st).1),
                   line := l, col := c }] } : LexState).symbols =
            (add_symbol (String.mk lex) st).2.symbols from rfl]
        rw [hsym]
        constructor
        · rw [bumpCount_map_id, bumpCount_length]
          exact h1
        · rw [show ({ (add_symbol (String.mk lex) st).2 with
                tokens := (add_symbol (String.mk lex) st).2.tokens ++
                  [{ kind := "IDENTIFIER", lexeme := String.mk lex,
                     attr := some (.str (add_symbol (String.mk lex) st).1),
                     line := l, col := c }] } : LexState).next_id =
              (add_symbol (String.mk lex) st).2.next_id from rfl]
          rw [hnext, bumpCount_length]
          exact h2
  all_goals exact ⟨h1, h2⟩

/-- Claim C5: the ids assigned by the symbol table are exactly
`id1 .. idN` — numeric parts `1..N` — in first-occurrence (insertion)
order, for every input; the first `add_symbol` call for a name assigns
`"id" ++ next_id` with count 1 and the next sequential id, and every later
call for the same name returns the already-stored id.  (The code formats
the sequential numeric id `next_id` as the string `f"id{next_id}"`.) -/
theorem claim_C5_symbol_ids (source : String) :
    ((tokenize source).symbols.map (fun p => p.2.id) =
      (List.range (tokenize source).symbols.length).map
        (fun i => "id" ++ toString (i + 1))) ∧
    (∀ (name : String) (st : LexState),
      (lookupSym st.symbols name = none →
        (add_symbol name st).1 = "id" ++ toString st.next_id ∧
        lookupSym (add_symbol name st).2.symbols name =
          some { id := "id" ++ toString st.next_id, count := 1 } ∧
        (add_symbol name st).2.next_id = st.next_id + 1) ∧
      (∀ e, lookupSym st.symbols name = some e → (add_symbol name st).1 = e.id)) := by
  constructor
  · have hscan := runScan_preserve source.data
      (fun st => (st.symbols.map (fun p => p.2.id) =
          (List.range st.symbols.length).map (fun i => "id" ++ toString (i + 1))) ∧
        st.next_id = st.symbols.length + 1)
      (fun k lex l c st h => classify_ids_step k lex l c st h.1 h.2)
      source.data.length 0 initState (by constructor <;> rfl)
    exact hscan.1
  · intro name st
    constructor
    · intro hl
      obtain ⟨ha, hsym, hnext⟩ := add_symbol_none hl
      exact ⟨ha, by rw [hsym]; exact lookupSym_append_self st.symbols name _ hl, hnext⟩
    · intro e hl
      exact (add_symbol_some hl).1

/-- Witness for claim C5: a fresh name gets `id1` with count 1 and bumps
`next_id`; a later call for the same name returns the stored id. -/
theorem claim_C5_symbol_ids_witness :
    (add_symbol "x" initState).1 = "id1" ∧
    lookupSym (add_symbol "x" initState).2.symbols "x" = some { id := "id1", count := 1 } ∧
    (add_symbol "x" { tokens := [], symbols := [("x", { id := "id1", count := 1 })],
                      next_id := 2 }).1 = "id1" := by
  refine ⟨?_, ?_, ?_⟩
  · exact ((((claim_C5_symbol_ids "x").2 "x" initState).1 (by decide)).1).trans (by decide)
  · exact ((((claim_C5_symbol_ids "x").2 "x" initState).1 (by decide)).2.1).trans (by decide)
  · exact (((claim_C5_symbol_ids "x").2 "x"
      { tokens := [], symbols := [("x", { id := "id1", count := 1 })], next_id := 2 }).2
      { id := "id1", count := 1 } (by decide))

/-! ## Claim C6: occurrence counts equal the number of IDENTIFIER tokens -/

theorem identTok_op_false (name s lexeme : String) (ow : Option Attr) (l c : Nat) :
    identTok name { kind := opDelimCategory s, lexeme := lexeme, attr := ow,
                    line := l, col := c } = false := by
  have h : (opDelimCategory s == "IDENTIFIER") = false :=
    beq_eq_false_iff_ne.mpr (opDelimCategory_ne s).2.1
  simp [identTok, h]

theorem classify_count_step (A B : String → Nat) (k : MKind) (lex : List Char)
    (l c : Nat) (st : LexState)
    (h : ∀ name, countOf st.symbols name + A name =
      st.tokens.countP (fun t => identTok name t) + B name) :
    ∀ name, countOf (classify k lex l c st).symbols name + A name =
      (classify k lex l c st).tokens.countP (fun t => identTok name t) + B name := by
  cases k
  case COMMENT_BLOCK => exact h
  case COMMENT_LINE => exact h
  case SKIP => exact h
  case NEWLINE => exact h
  case ID =>
    intro name
    by_cases hk : String.mk lex ∈ keywords
    · simp only [classify, if_pos hk]
      rw [List.countP_append]
      have hz : List.countP (fun t => identTok name t)
          [{ kind := "KEYWORD", lexeme := String.mk lex, attr := none,
             line := l, col := c }] = 0 := by
        simp [identTok]
      rw [hz]
      exact h name
    · simp only [classify, if_neg hk]
      rw [show ({ (add_symbol (String.mk lex) st).2 with
            tokens := (add_symbol (String.mk lex) st).2.tokens ++
              [{ kind := "IDENTIFIER", lexeme := String.mk lex,
                 attr := some (.str (add_symbol (String.mk lex) st).1),
                 line := l, col := c }] } : LexState).symbols =
          (add_symbol (String.mk lex) st).2.symbols from rfl]
      rw [add_symbol_tokens, List.countP_append]
      by_cases hn : name = String.mk lex
      · have hone : List.countP (fun t => identTok name t)
            [{ kind := "IDENTIFIER", lexeme := String.mk lex,
               attr := some (.str (add_symbol (String.mk lex) st).1),
               line := l, col := c }] = 1 := by
          simp [identTok, hn]
        rw [hone, hn, add_symbol_countOf_self]
        have hh := h (String.mk lex)
        omega
      · have hzero : List.countP (fun t => identTok name t)
            [{ kind := "IDENTIFIER", lexeme := String.mk lex,
               attr := some (.str (add_symbol (String.mk lex) st).1),
               line := l, col := c }] = 0 := by
          have hne : (String.mk lex == name) = false :=
            beq_eq_false_iff_ne.mpr (fun hh => hn hh.symm)
          simp [identTok, hne]
        rw [hzero, add_symbol_countOf_other _ _ _ hn]
        have hh := h name
        omega
  case ELLIPSIS =>
    (intro name
     simp only [classify]
     rw [List.countP_append]
     have hh := h name
     rw [show List.countP (fun t => identTok name t)
           [{ kind := opDelimCategory (String.mk lex), lexeme := String.mk lex,
              attr := none, line := l, col := c }] = 0 from by
         simp [List.countP_cons,
           identTok_op_false name (String.mk lex) (String.mk lex) none l c]]
     omega)
  case OP_3 =>
    (intro name
     simp only [classify]
     rw [List.countP_append]
     have hh := h name
     rw [show List.countP (fun t => identTok name t)
           [{ kind := opDelimCategory (String.mk lex), lexeme := String.mk lex,
              attr := none, line := l, col := c }] = 0 from by
         simp [List.countP_cons,
           identTok_op_false name (String.mk lex) (String.mk lex) none l c]]
     omega)
  case OP_2 =>
    (intro name
     simp only [classify]
     rw [List.countP_append]
     have hh := h name
     rw [show List.countP (fun t => identTok name t)
           [{ kind := opDelimCategory (String.mk lex), lexeme := String.mk lex,
              attr := none, line := l, col := c }] = 0 from by
         simp [List.countP_cons,
           identTok_op_false name (String.mk lex) (String.mk lex) none l c]]
     omega)
  case OP_1 =>
    (intro name
     simp only [classify]
     rw [List.countP_append]
     have hh := h name
     rw [show List.countP (fun t => identTok name t)
           [{ kind := opDelimCategory (String.mk lex), lexeme := String.mk lex,
              attr := none, line := l, col := c }] = 0 from by
         simp [List.countP_cons,
           identTok_op_false name (String.mk lex) (String.mk lex) none l c]]
     omega)
  case DELIM =>
    (intro name
     simp only [classify]
     rw [List.countP_append]
     have hh := h name
     rw [show List.countP (fun t => identTok name t)
           [{ kind := opDelimCategory (String.mk lex), lexeme := String.mk lex,
              attr := none, line := l, col := c }] = 0 from by
         simp [List.countP_cons,
           identTok_op_false name (String.mk lex) (String.mk lex) none l c]]
     omega)
  all_goals
    (intro name
     simp only [classify]
     rw [List.countP_append]
     have hh := h name
     have hz : ∀ (t : Tok), identTok name t = false →
         List.countP (fun t' => identTok name t') [t] = 0 := by
       intro t ht
       simp [List.countP_cons, ht]
     rw [hz _ (by simp [identTok])]
     omega)

/-- Claim C6: for every input and name, the `occurrence_count` stored in
the symbol table (0 when the name is absent) equals the number of
`IDENTIFIER` tokens with that lexeme in the output stream; in particular
scanning `"x x x"` yields exactly one symbol entry, with count 3. -/
theorem claim_C6_occurrence_counts (source : String) (name : String) :
    countOf (tokenize source).symbols name =
      (tokenize source).tokens.countP (fun t => identTok name t) ∧
    (tokenize "x x x").symbols = [("x", { id := "id1", count := 3 })] := by
  constructor
  · have hscan := runScan_preserve source.data
      (fun st => ∀ nm, countOf st.symbols nm + (fun _ : String => 0) nm =
        st.tokens.countP (fun t => identTok nm t) + (fun _ : String => 0) nm)
      (fun k lex l c st hh => classify_count_step _ _ k lex l c st hh)
      source.data.length 0 initState (fun nm => rfl)
    have hh := hscan name
    simp only [] at hh
    rw [tokenize_tokens_split, List.countP_append]
    rw [show (tokenize source).symbols =
        (runScan source.data source.data.length 0 initState).symbols from rfl]
    have hz : List.countP (fun t => identTok name t)
        [{ kind := "EOF", lexeme := "", attr := none,
           line := (get_line_col source.data source.data.length).1,
           col := (get_line_col source.data source.data.length).2 }] = 0 := by
      simp [List.countP_cons, identTok]
    rw [hz]
    omega
  · decide

/-! ## Claim C9: a second `tokenize` call on the same instance -/

theorem tabKeys_append (tab : List (String × SymEntry)) (name : String) (e : SymEntry) :
    tabKeys (tab ++ [(name, e)]) = tabKeys tab ++ [name] := by
  simp [tabKeys]

theorem mem_keys_of_lookup_some {tab : List (String × SymEntry)} {name : String} {e : SymEntry}
    (h : lookupSym tab name = some e) : name ∈ tabKeys tab := by
  by_contra hmem
  rw [← lookupSym_eq_none_iff] at hmem
  rw [hmem] at h
  exact absurd h (by simp)

theorem lookup_some_of_mem_keys {tab : List (String × SymEntry)} {name : String}
    (h : name ∈ tabKeys tab) : ∃ e, lookupSym tab name = some e := by
  rcases hl : lookupSym tab name with _ | e
  · exact absurd h ((lookupSym_eq_none_iff tab name).mp hl)
  · exact ⟨e, rfl⟩

theorem classify_keys_mono (k : MKind) (lex : List Char) (l c : Nat) (st : LexState)
    (name : String) (h : name ∈ tabKeys st.symbols) :
    name ∈ tabKeys (classify k lex l c st).symbols := by
  cases k
  case ID =>
    by_cases hk : String.mk lex ∈ keywords
    · simpa only [classify, if_pos hk] using h
    · simp only [classify, if_neg hk]
      rcases hl : lookupSym st.symbols (String.mk lex) with _ | e
      · rw [show ({ (add_symbol (String.mk lex) st).2 with
              tokens := (add_symbol (String.mk lex) st).2.tokens ++
                [{ kind := "IDENTIFIER", lexeme := String.mk lex,
                   attr := some (.str (add_symbol (String.mk lex) st).1),
                   line := l, col := c }] } : LexState).symbols =
            (add_symbol (String.mk lex) st).2.symbols from rfl]
        rw [(add_symbol_none hl).2.1, tabKeys_append]
        exact List.mem_append_left _ h
      · rw [show ({ (add_symbol (String.mk lex) st).2 with
              tokens := (add_symbol (String.mk lex) st).2.tokens ++
                [{ kind := "IDENTIFIER", lexeme := String.mk lex,
                   attr := some (.str (add_symbol (String.mk lex) st).1),
                   line := l, col := c }] } : LexState).symbols =
            (add_symbol (String.mk lex) st).2.symbols from rfl]
        rw [(add_symbol_some hl).2.1, bumpCount_keys]
        exact h
  all_goals exact h

theorem klToks_ident_mem {k : MKind} {lex : List Char} {name : String}
    (h : ("IDENTIFIER", name) ∈ klToks k lex) :
    k = MKind.ID ∧ ¬(String.mk lex ∈ keywords) ∧ name = String.mk lex := by
  cases k
  all_goals simp [klToks] at h
  case ID =>
    rcases h with ⟨h1, h2⟩
    by_cases hk : String.mk lex ∈ keywords
    · rw [if_pos hk] at h1
      exact absurd h1.symm (by decide)
    · exact ⟨rfl, hk, h2⟩
  all_goals
    (exfalso
     rcases h with ⟨h1, -⟩
     exact absurd h1.symm (opDelimCategory_ne (String.mk lex)).2.1)

theorem klIdNames_succ (src : List Char) (fuel pos : Nat) (c : Char) (cs : List Char)
    (hd : src.drop pos = c :: cs) :
    klIdNames src (fuel + 1) pos =
      (klToks (scanMatch (lineStartAt src pos) (c :: cs)).1
          ((c :: cs).take (scanMatch (lineStartAt src pos) (c :: cs)).2)).filterMap
        (fun p => if p.1 == "IDENTIFIER" then some p.2 else none) ++
      klIdNames src fuel (pos + (scanMatch (lineStartAt src pos) (c :: cs)).2) := by
  unfold klIdNames
  rw [show klScan src (fuel + 1) pos =
        klToks (scanMatch (lineStartAt src pos) (c :: cs)).1
          ((c :: cs).take (scanMatch (lineStartAt src pos) (c :: cs)).2) ++
        klScan src fuel (pos + (scanMatch (lineStartAt src pos) (c :: cs)).2) from by
      simp only [klScan]
      rw [hd]]
  rw [List.filterMap_append]

theorem ident_pair_of_mem_klIdNames {src : List Char} {fuel pos : Nat} {name : String}
    (h : name ∈ klIdNames src fuel pos) :
    ("IDENTIFIER", name) ∈ klScan src fuel pos := by
  unfold klIdNames at h
  rcases List.mem_filterMap.mp h with ⟨p, hp, hf⟩
  by_cases hb : p.1 == "IDENTIFIER"
  · rw [if_pos hb] at hf
    injection hf with hf
    have h1 : p.1 = "IDENTIFIER" := by
      have := beq_iff_eq.mp hb
      exact this
    have : p = ("IDENTIFIER", name) := by
      obtain ⟨p1, p2⟩ := p
      simp only at h1 hf
      rw [h1, hf]
    rw [← this]
    exact hp
  · rw [if_neg hb] at hf
    exact absurd hf (by simp)

theorem runScan_id_names_in_keys (src : List Char) :
    ∀ (fuel pos : Nat) (st : LexState) (name : String),
      name ∈ klIdNames src fuel pos →
      name ∈ tabKeys (runScan src fuel pos st).symbols := by
  intro fuel
  induction fuel with
  | zero =>
      intro pos st name h
      simp [klIdNames, klScan] at h
  | succ n ih =>
      intro pos st name h
      cases hd : src.drop pos with
      | nil =>
          simp [klIdNames, klScan, hd] at h
      | cons c cs =>
          rw [show runScan src (n + 1) pos st =
                runScan src n (pos + (scanMatch (lineStartAt src pos) (c :: cs)).2)
                  (classify (scanMatch (lineStartAt src pos) (c :: cs)).1
                    ((c :: cs).take (scanMatch (lineStartAt src pos) (c :: cs)).2)
                    (get_line_col src pos).1 (get_line_col src pos).2 st) from by
              simp only [runScan]
              rw [hd]]
          rw [klIdNames_succ src n pos c cs hd] at h
          rcases List.mem_append.mp h with h1 | h2
          · rcases List.mem_filterMap.mp h1 with ⟨p, hp, hf⟩
            have hpair : p = ("IDENTIFIER", name) := by
              by_cases hb : p.1 == "IDENTIFIER"
              · rw [if_pos hb] at hf
                injection hf with hf
                obtain ⟨p1, p2⟩ := p
                have h1' : p1 = "IDENTIFIER" := beq_iff_eq.mp hb
                simp only at hf
                rw [h1', hf]
              · rw [if_neg hb] at hf
                exact absurd hf (by simp)
            subst hpair
            obtain ⟨hk, hnkw, hname⟩ := klToks_ident_mem hp
            have hmem : name ∈ tabKeys
                (classify (scanMatch (lineStartAt src pos) (c :: cs)).1
                  ((c :: cs).take (scanMatch (lineStartAt src pos) (c :: cs)).2)
                  (get_line_col src pos).1 (get_line_col src pos).2 st).symbols := by
              rw [hk]
              simp only [classify, if_neg hnkw]
              rcases hl : lookupSym st.symbols
                  (String.mk ((c :: cs).take
                    (scanMatch (lineStartAt src pos) (c :: cs)).2)) with _ | e
              · rw [show ({ (add_symbol (String.mk ((c :: cs).take
                      (scanMatch (lineStartAt src pos) (c :: cs)).2)) st).2 with
                    tokens := (add_symbol (String.mk ((c :: cs).take
                      (scanMatch (lineStartAt src pos) (c :: cs)).2)) st).2.tokens ++
                      [{ kind := "IDENTIFIER",
                         lexeme := String.mk ((c :: cs).take
                           (scanMatch (lineStartAt src pos) (c :: cs)).2),
                         attr := some (.str (add_symbol (String.mk ((c :: cs).take
                           (scanMatch (lineStartAt src pos) (c :: cs)).2)) st).1),
                         line := (get_line_col src pos).1,
                         col := (get_line_col src pos).2 }] } : LexState).symbols =
                    (add_symbol (String.mk ((c :: cs).take
                      (scanMatch (lineStartAt src pos) (c :: cs)).2)) st).2.symbols from rfl]
                rw [(add_symbol_none hl).2.1, tabKeys_append, hname]
                exact List.mem_append_right _ (List.mem_singleton.mpr rfl)
              · rw [show ({ (add_symbol (String.mk ((c :: cs).take
                      (scanMatch (lineStartAt src pos) (c :: cs)).2)) st).2 with
                    tokens := (add_symbol (String.mk ((c :: cs).take
                      (scanMatch (lineStartAt src pos) (c :: cs)).2)) st).2.tokens ++
                      [{ kind := "IDENTIFIER",
                         lexeme := String.mk ((c :: cs).take
                           (scanMatch (lineStartAt src pos) (c :: cs)).2),
                         attr := some (.str (add_symbol (String.mk ((c :: cs).take
                           (scanMatch (lineStartAt src pos) (c :: cs)).2)) st).1),
                         line := (get_line_col src pos).1,
                         col := (get_line_col src pos).2 }] } : LexState).symbols =
                    (add_symbol (String.mk ((c :: cs).take
                      (scanMatch (lineStartAt src pos) (c :: cs)).2)) st).2.symbols from rfl]
                rw [(add_symbol_some hl).2.1, bumpCount_keys, hname]
                exact mem_keys_of_lookup_some hl
            have hpres := runScan_preserve src
              (fun s => name ∈ tabKeys s.symbols)
              (fun k' lex' l' c' s hh => classify_keys_mono k' lex' l' c' s name hh)
              n (pos + (scanMatch (lineStartAt src pos) (c :: cs)).2) _ hmem
            exact hpres
          · exact ih _ _ name h2

theorem classify_id_nonkw (lex : List Char) (l c : Nat) (st : LexState)
    (hk : ¬(String.mk lex ∈ keywords)) :
    (classify MKind.ID lex l c st).symbols = (add_symbol (String.mk lex) st).2.symbols ∧
    (classify MKind.ID lex l c st).next_id = (add_symbol (String.mk lex) st).2.next_id ∧
    (classify MKind.ID lex l c st).tokens =
      st.tokens ++ [{ kind := "IDENTIFIER", lexeme := String.mk lex,
                      attr := some (.str (add_symbol (String.mk lex) st).1),
                      line := l, col := c }] := by
  refine ⟨?_, ?_, ?_⟩
  · simp only [classify, if_neg hk]
  · simp only [classify, if_neg hk]
  · simp only [classify, if_neg hk]
    rw [add_symbol_tokens]

theorem classify_ids_preserved (k : MKind) (lex : List Char) (l c : Nat) (st : LexState)
    (hname : ∀ p ∈ klToks k lex, p.1 = "IDENTIFIER" → p.2 ∈ tabKeys st.symbols) :
    tabIds (classify k lex l c st).symbols = tabIds st.symbols ∧
    (classify k lex l c st).next_id = st.next_id ∧
    tabKeys (classify k lex l c st).symbols = tabKeys st.symbols := by
  cases k
  case ID =>
    by_cases hk : String.mk lex ∈ keywords
    · refine ⟨?_, ?_, ?_⟩ <;> simp only [classify, if_pos hk]
    · have hmem : String.mk lex ∈ tabKeys st.symbols := by
        apply hname ("IDENTIFIER", String.mk lex) ?_ rfl
        simp [klToks, hk]
      rcases lookup_some_of_mem_keys hmem with ⟨e, hl⟩
      obtain ⟨hsym, hnext, -⟩ := classify_id_nonkw lex l c st hk
      refine ⟨?_, ?_, ?_⟩
      · rw [hsym, (add_symbol_some hl).2.1, bumpCount_tabIds]
      · rw [hnext, (add_symbol_some hl).2.2]
      · rw [hsym, (add_symbol_some hl).2.1, bumpCount_keys]
  all_goals exact ⟨rfl, rfl, rfl⟩

theorem runScan_ids_preserved (src : List Char) :
    ∀ (fuel pos : Nat) (st : LexState),
      (∀ name, name ∈ klIdNames src fuel pos → name ∈ tabKeys st.symbols) →
      tabIds (runScan src fuel pos st).symbols = tabIds st.symbols ∧
      (runScan src fuel pos st).next_id = st.next_id ∧
      tabKeys (runScan src fuel pos st).symbols = tabKeys st.symbols := by
  intro fuel
  induction fuel with
  | zero => intro pos st _; exact ⟨rfl, rfl, rfl⟩
  | succ n ih =>
      intro pos st H
      cases hd : src.drop pos with
      | nil =>
          rw [show runScan src (n + 1) pos st = st from by simp only [runScan]; rw [hd]]
          exact ⟨rfl, rfl, rfl⟩
      | cons c cs =>
          rw [show runScan src (n + 1) pos st =
                runScan src n (pos + (scanMatch (lineStartAt src pos) (c :: cs)).2)
                  (classify (scanMatch (lineStartAt src pos) (c :: cs)).1
                    ((c :: cs).take (scanMatch (lineStartAt src pos) (c :: cs)).2)
                    (get_line_col src pos).1 (get_line_col src pos).2 st) from by
              simp only [runScan]
              rw [hd]]
          have hstep := classify_ids_preserved
            (scanMatch (lineStartAt src pos) (c :: cs)).1
            ((c :: cs).take (scanMatch (lineStartAt src pos) (c :: cs)).2)
            (get_line_col src pos).1 (get_line_col src pos).2 st
            (by
              intro p hp hpid
              apply H
              rw [klIdNames_succ src n pos c cs hd]
              apply List.mem_append_left
              apply List.mem_filterMap.mpr
              refine ⟨p, hp, ?_⟩
              rw [if_pos (by exact beq_iff_eq.mpr hpid)])
          have H' : ∀ name,
              name ∈ klIdNames src n (pos + (scanMatch (lineStartAt src pos) (c :: cs)).2) →
              name ∈ tabKeys (classify (scanMatch (lineStartAt src pos) (c :: cs)).1
                ((c :: cs).take (scanMatch (lineStartAt src pos) (c :: cs)).2)
                (get_line_col src pos).1 (get_line_col src pos).2 st).symbols := by
            intro name hn
            rw [hstep.2.2]
            apply H
            rw [klIdNames_succ src n pos c cs hd]
            exact List.mem_append_right _ hn
          have hrec := ih _ _ H'
          exact ⟨hrec.1.trans hstep.1, hrec.2.1.trans hstep.2.1, hrec.2.2.trans hstep.2.2⟩

theorem classify_keys_nodup (k : MKind) (lex : List Char) (l c : Nat) (st : LexState)
    (h : (tabKeys st.symbols).Nodup) : (tabKeys (classify k lex l c st).symbols).Nodup := by
  cases k
  case ID =>
    by_cases hk : String.mk lex ∈ keywords
    · simp only [classify, if_pos hk]
      exact h
    · rcases hl : lookupSym st.symbols (String.mk lex) with _ | e
      · rw [(classify_id_nonkw lex l c st hk).1, (add_symbol_none hl).2.1, tabKeys_append]
        rw [List.nodup_append]
        refine ⟨h, List.nodup_singleton _, ?_⟩
        intro a ha hb
        rw [List.mem_singleton] at hb
        subst hb
        exact (lookupSym_eq_none_iff _ _).mp hl ha
      · rw [(classify_id_nonkw lex l c st hk).1, (add_symbol_some hl).2.1, bumpCount_keys]
        exact h
  all_goals exact h

theorem countP_kl (q : String × String → Bool) (src : List Char) (fuel pos : Nat)
    (st : LexState) :
    ((runScan src fuel pos st).tokens).countP (fun t => q (klProj t)) =
      st.tokens.countP (fun t => q (klProj t)) + (klScan src fuel pos).countP q := by
  have h := congrArg (List.countP q) (runScan_kl src fuel pos st)
  rw [List.countP_map, List.countP_append, List.countP_map] at h
  exact h

theorem runScan_counts (src : List Char) (A B : String → Nat) (fuel pos : Nat) (st : LexState)
    (h0 : ∀ nm, countOf st.symbols nm + A nm =
      st.tokens.countP (fun t => identTok nm t) + B nm) :
    ∀ nm, countOf (runScan src fuel pos st).symbols nm + A nm =
      (runScan src fuel pos st).tokens.countP (fun t => identTok nm t) + B nm :=
  runScan_preserve src
    (fun s => ∀ nm, countOf s.symbols nm + A nm =
      s.tokens.countP (fun t => identTok nm t) + B nm)
    (fun k lex l c s hh => classify_count_step A B k lex l c s hh)
    fuel pos st h0

theorem counts_double_map :
    ∀ (t s : List (String × SymEntry)),
      tabIds s = tabIds t →
      (tabKeys t).Nodup →
      (∀ name, countOf s name = 2 * countOf t name) →
      s.map (fun p => p.2.count) = t.map (fun p => 2 * p.2.count) := by
  intro t
  induction t with
  | nil =>
      intro s hids _ _
      cases s with
      | nil => rfl
      | cons q s' => simp [tabIds] at hids
  | cons q t ih =>
      intro s hids hnod hcnt
      obtain ⟨k, e⟩ := q
      cases s with
      | nil => simp [tabIds] at hids
      | cons q' s' =>
          obtain ⟨k', e'⟩ := q'
          simp only [tabIds, List.map_cons, List.cons.injEq, Prod.mk.injEq] at hids
          obtain ⟨⟨hk, hid⟩, htail⟩ := hids
          subst hk
          have hhead : e'.count = 2 * e.count := by
            have hc := hcnt k'
            rw [countOf_eq_some (show lookupSym ((k', e') :: s') k' = some e' from by
                  simp [lookupSym])] at hc
            rw [countOf_eq_some (show lookupSym ((k', e) :: t) k' = some e from by
                  simp [lookupSym])] at hc
            exact hc
          have hnodc := List.nodup_cons.mp (by
            have hkk : tabKeys ((k', e) :: t) = k' :: tabKeys t := by simp [tabKeys]
            rw [hkk] at hnod
            exact hnod)
          have hknotmem : ¬(k' ∈ tabKeys t) := hnodc.1
          have hnod' : (tabKeys t).Nodup := hnodc.2
          have hkeys_eq : tabKeys s' = tabKeys t := by
            have hmap := congrArg (List.map (fun q : String × String => q.1)) htail
            simpa [tabKeys, Function.comp] using hmap
          have hcnt' : ∀ name, countOf s' name = 2 * countOf t name := by
            intro name
            by_cases hn : name = k'
            · subst hn
              have h1 : countOf s' name = 0 :=
                countOf_eq_none ((lookupSym_eq_none_iff _ _).mpr (by
                  rw [hkeys_eq]
                  exact hknotmem))
              have h2 : countOf t name = 0 :=
                countOf_eq_none ((lookupSym_eq_none_iff _ _).mpr hknotmem)
              rw [h1, h2]
            · have hkn : ¬(k' = name) := fun hh => hn hh.symm
              have h1 : countOf ((k', e') :: s') name = countOf s' name := by
                unfold countOf
                rw [show lookupSym ((k', e') :: s') name = lookupSym s' name from by
                      simp [lookupSym, hkn]]
              have h2 : countOf ((k', e) :: t) name = countOf t name := by
                unfold countOf
                rw [show lookupSym ((k', e) :: t) name = lookupSym t name from by
                      simp [lookupSym, hkn]]
              have hc := hcnt name
              rw [h1, h2] at hc
              exact hc
          simp only [List.map_cons]
          rw [hhead, ih s' htail hnod' hcnt']

/-- Claim C9: calling `tokenize` a second time on the same `Lexer` instance
does not reproduce the first result, because `tokenize` never resets
`self.tokens` or `self.symbols`: the second scan's tokens are appended
after the first scan's tokens (a nonempty suffix, so the list then holds
two `EOF` tokens — one from each call), the symbol table keeps exactly the
same names and ids, and every identifier's occurrence count is doubled. -/
theorem claim_C9_double_scan (source : String) :
    (∃ d, (tokenizeFrom source.data (tokenize source)).tokens =
        (tokenize source).tokens ++ d ∧ ¬(d = [])) ∧
    (tokenize source).tokens.countP (fun t => t.kind == "EOF") = 1 ∧
    (tokenizeFrom source.data (tokenize source)).tokens.countP
      (fun t => t.kind == "EOF") = 2 ∧
    tabIds (tokenizeFrom source.data (tokenize source)).symbols =
      tabIds (tokenize source).symbols ∧
    (tokenizeFrom source.data (tokenize source)).symbols.map (fun p => p.2.count) =
      (tokenize source).symbols.map (fun p => 2 * p.2.count) := by
  have hsplit2 : (tokenizeFrom source.data (tokenize source)).tokens =
      (runScan source.data source.data.length 0 (tokenize source)).tokens ++
      [{ kind := "EOF", lexeme := "", attr := none,
         line := (get_line_col source.data source.data.length).1,
         col := (get_line_col source.data source.data.length).2 }] := rfl
  have hsym1 : (tokenize source).symbols =
      (runScan source.data source.data.length 0 initState).symbols := rfl
  have hsym2 : (tokenizeFrom source.data (tokenize source)).symbols =
      (runScan source.data source.data.length 0 (tokenize source)).symbols := rfl
  have hE1 : (tokenize source).tokens.countP (fun t => t.kind == "EOF") = 1 := by
    rw [tokenize_tokens_split, List.countP_append, runScan_no_eof_from_init]
    simp
  have hfunE : (fun t : Tok => (fun q : String × String => q.1 == "EOF") (klProj t)) =
      (fun t : Tok => t.kind == "EOF") := rfl
  have hE2 : (tokenizeFrom source.data (tokenize source)).tokens.countP
      (fun t => t.kind == "EOF") = 2 := by
    rw [hsplit2, List.countP_append]
    have h2 := countP_kl (fun q => q.1 == "EOF") source.data source.data.length 0
      (tokenize source)
    rw [hfunE] at h2
    rw [h2, klScan_no_eof, hE1]
    simp
  have hkeys1 : ∀ name, name ∈ klIdNames source.data source.data.length 0 →
      name ∈ tabKeys (tokenize source).symbols := by
    intro name hn
    rw [hsym1]
    exact runScan_id_names_in_keys source.data source.data.length 0 initState name hn
  have hids := runScan_ids_preserved source.data source.data.length 0 (tokenize source) hkeys1
  have hIds : tabIds (tokenizeFrom source.data (tokenize source)).symbols =
      tabIds (tokenize source).symbols := by
    rw [hsym2]
    exact hids.1
  have hcntR1 := runScan_counts source.data (fun _ => 0) (fun _ => 0)
    source.data.length 0 initState (fun nm => rfl)
  have hfunI : ∀ nm : String, (fun t : Tok => (identKl nm) (klProj t)) =
      (fun t : Tok => identTok nm t) := fun nm => rfl
  have hst1tok : ∀ nm, (tokenize source).tokens.countP (fun t => identTok nm t) =
      (klScan source.data source.data.length 0).countP (identKl nm) := by
    intro nm
    rw [tokenize_tokens_split, List.countP_append]
    have h1 := countP_kl (identKl nm) source.data source.data.length 0 initState
    rw [hfunI nm] at h1
    rw [h1]
    have hz : List.countP (fun t => identTok nm t)
        [{ kind := "EOF", lexeme := "", attr := none,
           line := (get_line_col source.data source.data.length).1,
           col := (get_line_col source.data source.data.length).2 }] = 0 := by
      simp [List.countP_cons, identTok]
    rw [hz]
    simp [initState]
  have hcnt1 : ∀ nm, countOf (tokenize source).symbols nm =
      (klScan source.data source.data.length 0).countP (identKl nm) := by
    intro nm
    have h := hcntR1 nm
    simp only [] at h
    have h1 := countP_kl (identKl nm) source.data source.data.length 0 initState
    rw [hfunI nm] at h1
    have h0 : initState.tokens.countP (fun t => identTok nm t) = 0 := rfl
    rw [hsym1]
    omega
  have hcntR2 := runScan_counts source.data
    (fun nm => (tokenize source).tokens.countP (fun t => identTok nm t))
    (fun nm => countOf (tokenize source).symbols nm)
    source.data.length 0 (tokenize source) (fun nm => Nat.add_comm _ _)
  have hcnt2 : ∀ nm, countOf (tokenizeFrom source.data (tokenize source)).symbols nm =
      2 * countOf (tokenize source).symbols nm := by
    intro nm
    have h := hcntR2 nm
    simp only [] at h
    have h2 := countP_kl (identKl nm) source.data source.data.length 0 (tokenize source)
    rw [hfunI nm] at h2
    have hK := hst1tok nm
    have hc1 := hcnt1 nm
    rw [hsym2]
    omega
  have hnod1 : (tabKeys (tokenize source).symbols).Nodup := by
    rw [hsym1]
    exact runScan_preserve source.data (fun s => (tabKeys s.symbols).Nodup)
      classify_keys_nodup source.data.length 0 initState (by simp [initState, tabKeys])
  have hmap : (tokenizeFrom source.data (tokenize source)).symbols.map (fun p => p.2.count) =
      (tokenize source).symbols.map (fun p => 2 * p.2.count) :=
    counts_double_map (tokenize source).symbols
      (tokenizeFrom source.data (tokenize source)).symbols hIds hnod1 hcnt2
  rcases runScan_tokens_append source.data source.data.length 0 (tokenize source)
    with ⟨d0, hd0⟩
  refine ⟨⟨d0 ++ [{ kind := "EOF", lexeme := "", attr := none, line := (get_line_col source.data source.data.length).1, col := (get_line_col source.data source.data.length).2 }], ?_, by simp⟩, hE1, hE2, hIds, hmap⟩
  rw [hsplit2, hd0, List.append_assoc]
